import Mathlib

/-!
Verification development for the Klash market-resolution backend
(`src/python/market_resolver.py` and `src/python/team_classifier.py`).

The development has three layers.

1. A typed embedding of the sentiment aggregation and decision code of
   `MarketResolver._resolve_by_sentiment` (market_resolver.py lines 80-166),
   acting on classification judgments `{team, confidence}` as produced by
   `TeamClassifier.classify_tweet`.  Confidences are embedded as exact
   rationals; Python's `round(x, n)` (round half to even on the decimal
   grid) is embedded as `roundTo`.
2. A typed embedding of the supporter bookkeeping of
   `team_classifier.classify_teams` (lines 128-196).
3. A dynamically-typed embedding of `MarketResolver.resolve_market`
   operating on a model `PyVal` of Python values, which reproduces the
   exception behaviour of the Python operations used by the resolver
   (`in`, subscript, `.get`, `.lower()`, iteration) via `Except`.
   Exceptions carry only the message text the resolver stores in its
   error records.  `timestamp` fields (wall-clock reads) are omitted
   from all records; no claim mentions them.
-/

/-! ### Rounding: Python's `round` on exact values -/

/-- Round a rational to the nearest integer, ties to the even integer
(Python / IEEE "banker's rounding", which is what `round` performs). -/
def rndHalfEven (q : ℚ) : ℤ :=
  let f := Rat.floor q
  let frac := q - f
  if frac < 1/2 then f
  else if 1/2 < frac then f + 1
  else if f % 2 = 0 then f else f + 1

/-- Python's `round(q, n)`: round half to even at `n` decimal places. -/
def roundTo (n : ℕ) (q : ℚ) : ℚ :=
  (rndHalfEven (q * 10 ^ n) : ℚ) / 10 ^ n

/-! ### Typed layer: sentiment aggregation of `_resolve_by_sentiment`

`market_resolver.py` initialises
`outcome_counts = {outcome: {"count": 0, "confidence_sum": 0.0} for outcome in outcomes}`
and then, per reply tweet, accepts the classification result when
`result['confidence'] >= self.min_confidence and result['team'] in outcome_counts`
(`min_confidence = 0.6`, line 37).  The typed layer works directly on the
stream of judgments `{team, confidence}` returned by the classifier for
the processed tweets (string-labelled outcomes, the spec's data model). -/

/-- One classification result, as returned by `TeamClassifier.classify_tweet`:
`team` is `None` or one of the candidate labels, `confidence` its score. -/
structure Judgment where
  team : Option String
  confidence : ℚ
deriving DecidableEq, Repr

/-- Per-outcome accumulator entry `{"count": ..., "confidence_sum": ...}`. -/
structure OCount where
  count : ℕ
  confidence_sum : ℚ
deriving DecidableEq, Repr

/-- The loop body of lines 90-106: accept a judgment iff its confidence is
at least 0.6 and its team is a key of `outcome_counts`; on acceptance bump
that outcome's `count` and `confidence_sum` and `total_analyzed`. -/
def aggStep (outcomes : List String) (acc : (String → OCount) × ℕ) (j : Judgment) :
    (String → OCount) × ℕ :=
  match j.team with
  | some t =>
      if (6/10 : ℚ) ≤ j.confidence ∧ t ∈ outcomes then
        (fun o => if o = t then
            ⟨(acc.1 o).count + 1, (acc.1 o).confidence_sum + j.confidence⟩
          else acc.1 o,
         acc.2 + 1)
      else acc
  | none => acc

/-- Accumulation loop over all judgments (lines 90-106), starting from the
zero-initialised `outcome_counts` and `total_analyzed = 0`. -/
def aggregate (outcomes : List String) (js : List Judgment) : (String → OCount) × ℕ :=
  js.foldl (aggStep outcomes) (fun _ => ⟨0, 0⟩, 0)

/-- Keep the first occurrence of each element: the key order of a Python
dict built by inserting the elements of a list in order. -/
def dedupKeysAux (seen : List String) : List String → List String
  | [] => []
  | a :: t => if a ∈ seen then dedupKeysAux seen t else a :: dedupKeysAux (a :: seen) t

/-- Key list of `outcome_counts` (insertion order, first occurrences). -/
def dedupKeys (l : List String) : List String := dedupKeysAux [] l

/-- The winner-tracking step of lines 128-138, run per dict entry:
a strictly greater count takes over; an equal positive count takes over
only when its mean confidence strictly exceeds the current winner's
(`current_confidence > winning_confidence`). -/
def winStep (stats : String → OCount) (acc : ℕ × Option String) (o : String) :
    ℕ × Option String :=
  let c := (stats o).count
  if acc.1 < c then (c, some o)
  else if c = acc.1 ∧ 0 < acc.1 then
    let cur := if 0 < c then (stats o).confidence_sum / (c : ℚ) else 0
    let win := if 0 < acc.1 then
        (match acc.2 with
         | some w => (stats w).confidence_sum
         | none => 0) / (acc.1 : ℚ)
      else 0
    if win < cur then (acc.1, some o) else acc
  else acc

/-- One `sentiment_breakdown` entry (lines 122-126). -/
structure BEntry where
  support_count : ℕ
  support_percentage : ℚ
  avg_confidence : ℚ
deriving DecidableEq, Repr

/-- The `sentiment_breakdown` computation of lines 120-126, one entry per
`outcome_counts` key. -/
def finalize (outcomes : List String) (stats : String → OCount) (total : ℕ) :
    List (String × BEntry) :=
  (dedupKeys outcomes).map fun o =>
    (o, ⟨(stats o).count,
         if 0 < total then roundTo 2 (((stats o).count : ℚ) / (total : ℚ) * 100) else 0,
         if 0 < (stats o).count then
           roundTo 4 ((stats o).confidence_sum / ((stats o).count : ℚ))
         else 0⟩)

/-- The decided record of lines 155-166 (market-identification fields and
timestamp omitted; they are copied verbatim / wall-clock). -/
structure DecidedCore where
  winning_outcome : Option String
  winning_index : ℤ
  confidence : ℚ
  sentiment_breakdown : List (String × BEntry)
  total_analyzed : ℕ
deriving DecidableEq, Repr

/-- Result of the sentiment path: a decided record, the
`raise ValueError("No valid tweets could be analyzed for sentiment")` of
lines 112-113, or the pending return of lines 141-146. -/
inductive CoreResult where
  | decided (r : DecidedCore)
  | insufficientRaise (msg : String)
  | pendingReturn (msg : String)
deriving DecidableEq, Repr

/-- The sentiment resolution pipeline of `_resolve_by_sentiment`
(lines 80-166) on the judgment stream: accumulate, raise when
`total_analyzed == 0`, compute breakdown and winner, return pending when
`max_count == 0`, else assemble the decided record with
`confidence = round(max_count / total_analyzed, 4)` and
`winning_index = outcomes.index(winning_outcome) if winning_outcome else -1`
(Python truthiness: `None` and `""` are falsy). -/
def resolveSentimentCore (outcomes : List String) (js : List Judgment) : CoreResult :=
  let st := aggregate outcomes js
  if st.2 = 0 then .insufficientRaise "No valid tweets could be analyzed for sentiment"
  else
    let breakdown := finalize outcomes st.1 st.2
    let win := (dedupKeys outcomes).foldl (winStep st.1) (0, Option.none)
    if win.1 = 0 then .pendingReturn "Insufficient data for sentiment analysis"
    else
      .decided ⟨win.2,
        (match win.2 with
         | some w => if w ≠ "" then (outcomes.indexOf w : ℤ) else -1
         | none => -1),
        roundTo 4 ((win.1 : ℚ) / (st.2 : ℚ)),
        breakdown,
        st.2⟩

/-! Closed forms for the accumulated statistics, used to state and prove
properties of the fold above. -/

/-- A judgment is accepted by the loop of lines 101-106. -/
def acceptB (outcomes : List String) (j : Judgment) : Bool :=
  decide ((6/10 : ℚ) ≤ j.confidence) &&
    (match j.team with
     | some t => outcomes.contains t
     | none => false)

/-- A judgment is accepted and votes for outcome `o`. -/
def isFor (outcomes : List String) (o : String) (j : Judgment) : Bool :=
  acceptB outcomes j && (j.team == some o)

/-- Number of accepted judgments for outcome `o`. -/
def cntA (outcomes : List String) (js : List Judgment) (o : String) : ℕ :=
  js.countP (isFor outcomes o)

/-- Sum of confidences of accepted judgments for outcome `o`. -/
def sumA (outcomes : List String) (js : List Judgment) (o : String) : ℚ :=
  ((js.filter (isFor outcomes o)).map (·.confidence)).sum

/-- Number of accepted judgments (`total_analyzed`). -/
def totalA (outcomes : List String) (js : List Judgment) : ℕ :=
  js.countP (acceptB outcomes)

/-- Mean confidence (`confidence_sum / count`) of an outcome. -/
def meanA (outcomes : List String) (js : List Judgment) (o : String) : ℚ :=
  sumA outcomes js o / (cntA outcomes js o : ℚ)

/-- Maximum accepted count over the outcome keys. -/
def maxA (outcomes : List String) (js : List Judgment) : ℕ :=
  ((dedupKeys outcomes).map (cntA outcomes js)).foldr max 0

/-! ### Team classifier layer: supporter bookkeeping of `classify_teams`

`team_classifier.py` lines 128-196: per qualifying tweet
(`if team and team in team_stats`, line 155 — Python truthiness, so an
empty-string team never qualifies) a supporter entry is appended in
arrival order; at the end each team's supporter list is sorted by
confidence descending (Python's stable sort with `reverse=True`) and
truncated to the first 100.  The zero-shot classifier is abstracted as a
total function from tweet text to a judgment, as `classify_tweet`
catches its own exceptions and returns `{"team": None, "confidence": 0.0}`.
Tweets are taken in the well-formed shape `{id, author, text}`; items
that are not dicts or lack a `text` key are skipped by the loop before
classification and never reach the supporters list. -/

/-- A reply tweet as consumed by the classification loop. -/
structure STweet where
  id : String
  author : String
  text : String
deriving DecidableEq, Repr

/-- One supporter entry as appended at lines 158-163. -/
structure Supporter where
  tweet_id : String
  author : String
  text : String
  confidence : ℚ
deriving DecidableEq, Repr

/-- Sorting relation of line 192: by confidence, highest first. -/
def rDesc (a b : Supporter) : Prop := b.confidence ≤ a.confidence

instance : DecidableRel rDesc := fun a b =>
  inferInstanceAs (Decidable (b.confidence ≤ a.confidence))

instance : IsTotal Supporter rDesc := ⟨fun a b => le_total b.confidence a.confidence⟩

instance : IsTrans Supporter rDesc := ⟨fun _ _ _ hab hbc => le_trans hbc hab⟩

/-- The supporters accumulated for team `t` over the tweet loop
(lines 140-165), in arrival order: a tweet contributes iff its
classification team is truthy (non-`None`, non-empty), is a key of
`team_stats` (i.e. one of the team labels) and equals `t`. -/
def supportersOf (clT : String → Judgment) (team_labels : List String)
    (tweets : List STweet) (t : String) : List Supporter :=
  match tweets with
  | [] => []
  | tw :: rest =>
    let j := clT tw.text
    let qual : Bool := match j.team with
      | some tm => !tm.isEmpty && team_labels.contains tm && tm == t
      | none => false
    if qual then
      ⟨tw.id, tw.author, tw.text, j.confidence⟩ :: supportersOf clT team_labels rest t
    else supportersOf clT team_labels rest t

/-- The reported supporters of lines 189-196: sort by confidence
descending, keep the first 100. -/
def reportedSupporters (clT : String → Judgment) (team_labels : List String)
    (tweets : List STweet) (t : String) : List Supporter :=
  (List.insertionSort rDesc (supportersOf clT team_labels tweets t)).take 100

/-! ### Dynamic layer: `resolve_market` on Python values

`PyVal` models the Python values that can reach `resolve_market` after
JSON decoding (plus arbitrary classifier outputs).  The Python
operations the resolver uses are modelled with their exception
behaviour; exception payloads keep only the message text (`str(e)`),
which is all `_create_error_response` stores.  Messages of exceptions
other than the resolver's own `ValueError`s are abbreviated. -/

inductive PyVal where
  | none : PyVal
  | bool : Bool → PyVal
  | int : ℤ → PyVal
  | float : ℚ → PyVal
  | str : String → PyVal
  | list : List PyVal → PyVal
  | dict : List (PyVal × PyVal) → PyVal

/-- Exceptions that the modelled operations can raise. -/
inductive PyExc where
  | valueError (msg : String)
  | typeError (msg : String)
  | attributeError (msg : String)
  | keyError (msg : String)
deriving DecidableEq

/-- `str(e)` as stored into the error record. -/
def excMsg : PyExc → String
  | .valueError m => m
  | .typeError m => m
  | .attributeError m => m
  | .keyError m => m

/-- Numeric view: Python compares `bool`, `int` and `float` by value
(`True == 1 == 1.0`). -/
def pyNumView : PyVal → Option ℚ
  | .bool b => some (if b then 1 else 0)
  | .int n => some (n : ℚ)
  | .float q => some q
  | _ => none

/-- Python `==` restricted to the comparisons the resolver performs:
at least one side is always a hashable scalar (a dict key, a field-name
string, or a classifier team checked against scalar keys), so deep
list/list and dict/dict equality is never exercised and is modelled as
`false`. -/
def pyEq (a b : PyVal) : Bool :=
  match pyNumView a, pyNumView b with
  | some x, some y => x == y
  | _, _ =>
    match a, b with
    | .none, .none => true
    | .str s, .str t => s == t
    | _, _ => false

/-- Python truthiness (`if winning_outcome`). -/
def pyTruthy : PyVal → Bool
  | .none => false
  | .bool b => b
  | .int n => n != 0
  | .float q => q != 0
  | .str s => !s.isEmpty
  | .list xs => !xs.isEmpty
  | .dict kvs => !kvs.isEmpty

/-- Lists and dicts are unhashable; scalars are hashable. -/
def pyHashable : PyVal → Bool
  | .list _ => false
  | .dict _ => false
  | _ => true

/-- `needle` occurs at the head of `hay`. -/
def isPre : List Char → List Char → Bool
  | [], _ => true
  | _ :: _, [] => false
  | a :: as, b :: bs => a == b && isPre as bs

/-- `needle` occurs somewhere in `hay` (Python `sub in s`). -/
def seqContains (needle : List Char) : List Char → Bool
  | [] => needle.isEmpty
  | b :: bs => isPre needle (b :: bs) || seqContains needle bs

/-- First value stored under a key equal to `k` (Python dicts hold at
most one entry per key; inputs are assumed free of duplicate keys). -/
def lookupPy (kvs : List (PyVal × PyVal)) (k : PyVal) : Option PyVal :=
  (kvs.find? (fun kv => pyEq kv.1 k)).map (·.2)

/-- Python `x in c`: key test for dicts (hashes `x`), element test for
lists, substring test for strings, `TypeError` otherwise. -/
def pyContains (x c : PyVal) : Except PyExc Bool :=
  match c with
  | .dict kvs =>
      if pyHashable x then .ok (kvs.any (fun kv => pyEq kv.1 x))
      else .error (.typeError "unhashable type")
  | .list xs => .ok (xs.any (fun e => pyEq e x))
  | .str s =>
      match x with
      | .str sub => .ok (seqContains sub.toList s.toList)
      | _ => .error (.typeError "requires string as left operand")
  | _ => .error (.typeError "argument is not iterable")

/-- Python `m.get(k, d)`: total on dicts, `AttributeError` otherwise. -/
def pyGetD (m : PyVal) (k : String) (d : PyVal) : Except PyExc PyVal :=
  match m with
  | .dict kvs => .ok ((lookupPy kvs (.str k)).getD d)
  | _ => .error (.attributeError "object has no attribute get")

/-- Python `m[k]` for a string key. -/
def pySub (m : PyVal) (k : String) : Except PyExc PyVal :=
  match m with
  | .dict kvs =>
      match lookupPy kvs (.str k) with
      | some v => .ok v
      | Option.none => .error (.keyError k)
  | _ => .error (.typeError "indices must be integers")

/-- ASCII lower-casing (the resolver only compares against the ASCII
method names `sentiment`, `oracle`, `manual`). -/
def strLower (s : String) : String := ⟨s.data.map Char.toLower⟩

/-- Python `v.lower()`. -/
def pyLower (v : PyVal) : Except PyExc String :=
  match v with
  | .str s => .ok (strLower s)
  | _ => .error (.attributeError "object has no attribute lower")

/-- Python iteration `for x in v`: elements, characters, or dict keys. -/
def pyIter (v : PyVal) : Except PyExc (List PyVal) :=
  match v with
  | .list xs => .ok xs
  | .str s => .ok (s.toList.map (fun c => .str c.toString))
  | .dict kvs => .ok (kvs.map (·.1))
  | _ => .error (.typeError "object is not iterable")

/-- Classifier output as consumed by the resolver loop:
`result['team']` is an arbitrary Python value, `result['confidence']` a
float (as guaranteed by `classify_tweet`). -/
structure DynJudgment where
  team : PyVal
  confidence : ℚ

/-- External classification capability: called with the tweet's `text`
value and the market's outcome list.  An `error` result models
`classify_tweet` raising, which the per-tweet handler of lines 108-109
catches (the tweet is skipped and processing continues). -/
def Cl := PyVal → List PyVal → Except Unit DynJudgment

/-- `_validate_market_data` lines 186-189: `field not in market_data`
raises `ValueError` for the first missing required field. -/
def checkFields (m : PyVal) : List String → Except PyExc Unit
  | [] => .ok ()
  | f :: fs =>
    match pyContains (.str f) m with
    | .error e => .error e
    | .ok b =>
        if b then checkFields m fs
        else .error (.valueError ("Missing required field: " ++ f))

/-- `_validate_market_data` (lines 184-192): required fields present,
`outcomes` a list of length at least 2.  Presence is the only check on
`market_id`, `question` and `resolution_method`; emptiness and outcome
uniqueness are not examined. -/
def validate_market_data (m : PyVal) : Except PyExc Unit :=
  match checkFields m ["market_id", "question", "outcomes", "resolution_method"] with
  | .error e => .error e
  | .ok _ =>
    match pySub m "outcomes" with
    | .error e => .error e
    | .ok v =>
      match v with
      | .list xs =>
          if xs.length < 2 then .error (.valueError "At least two outcomes are required")
          else .ok ()
      | _ => .error (.valueError "At least two outcomes are required")

/-- The pending record of `_pending_resolution` (lines 168-182), for a
dict market (timestamp omitted). -/
def pendingRecordOf (kvs : List (PyVal × PyVal)) (method msg : String) : PyVal :=
  .dict [(.str "market_id", (lookupPy kvs (.str "market_id")).getD (.str "")),
         (.str "question", (lookupPy kvs (.str "question")).getD (.str "")),
         (.str "outcomes", (lookupPy kvs (.str "outcomes")).getD (.list [])),
         (.str "winning_outcome", .none),
         (.str "winning_index", .int (-1)),
         (.str "confidence", .float 0),
         (.str "resolution_method", .str method),
         (.str "status", .str "pending"),
         (.str "message", .str msg)]

/-- `_pending_resolution`: on a non-dict market the very first
`market_data.get` raises `AttributeError`. -/
def pending_resolution (m : PyVal) (method msg : String) : Except PyExc PyVal :=
  match m with
  | .dict kvs => .ok (pendingRecordOf kvs method msg)
  | _ => .error (.attributeError "object has no attribute get")

/-- The error record of `_create_error_response` (lines 194-203), for a
dict market (timestamp omitted). -/
def errorRecordOf (kvs : List (PyVal × PyVal)) (msg : String) : PyVal :=
  .dict [(.str "market_id", (lookupPy kvs (.str "market_id")).getD (.str "unknown")),
         (.str "question", (lookupPy kvs (.str "question")).getD (.str "")),
         (.str "outcomes", (lookupPy kvs (.str "outcomes")).getD (.list [])),
         (.str "error", .str msg),
         (.str "status", .str "error")]

/-- `_create_error_response`: on a non-dict market its own
`market_data.get` raises `AttributeError`, which escapes the resolver. -/
def create_error_response (m : PyVal) (msg : String) : Except PyExc PyVal :=
  match m with
  | .dict kvs => .ok (errorRecordOf kvs msg)
  | _ => .error (.attributeError "object has no attribute get")

/-- Initial `outcome_counts` (line 86): one zero entry per distinct
outcome, in first-occurrence order. -/
def dedupPyAux (seen : List PyVal) : List PyVal → List PyVal
  | [] => []
  | a :: t =>
      if seen.any (fun e => pyEq e a) then dedupPyAux seen t
      else a :: dedupPyAux (a :: seen) t

/-- Distinct dict keys of `outcome_counts` in insertion order. -/
def dedupPy (l : List PyVal) : List PyVal := dedupPyAux [] l

/-- Zero-initialised `outcome_counts` as an association list. -/
def initStats (keys : List PyVal) : List (PyVal × OCount) :=
  keys.map (fun k => (k, ⟨0, 0⟩))

/-- Per-tweet decision of lines 90-106: skip non-dict tweets and tweets
without a `text` key; call the classifier (a raise skips the tweet,
lines 108-109); accept iff `confidence >= 0.6` and the team is a key of
`outcome_counts` (`team in outcome_counts` hashes the team, so an
unhashable team raises inside the per-tweet handler and is skipped —
modelled as rejection, which leaves the same state). -/
def tweetJudge (cl : Cl) (outs keys : List PyVal) (tw : PyVal) : Option (PyVal × ℚ) :=
  match tw with
  | .dict kvs =>
    match lookupPy kvs (.str "text") with
    | some txt =>
      match cl txt outs with
      | .ok j =>
          if (6/10 : ℚ) ≤ j.confidence ∧ pyHashable j.team
              ∧ keys.any (fun k => pyEq k j.team) then
            some (j.team, j.confidence)
          else Option.none
      | .error _ => Option.none
    | Option.none => Option.none
  | _ => Option.none

/-- Bump the matching `outcome_counts` entry (lines 104-105). -/
def bumpStats (stats : List (PyVal × OCount)) (t : PyVal) (c : ℚ) :
    List (PyVal × OCount) :=
  stats.map (fun kv =>
    if pyEq kv.1 t then (kv.1, ⟨kv.2.count + 1, kv.2.confidence_sum + c⟩) else kv)

/-- One iteration of the tweet loop. -/
def dynStep (cl : Cl) (outs keys : List PyVal) (acc : List (PyVal × OCount) × ℕ)
    (tw : PyVal) : List (PyVal × OCount) × ℕ :=
  match tweetJudge cl outs keys tw with
  | some (t, c) => (bumpStats acc.1 t c, acc.2 + 1)
  | Option.none => acc

/-- `outcome_counts[winning_outcome]` (line 135); the fallback entry is
never used, as the winner is a key whenever `max_count > 0`. -/
def statsFind (stats : List (PyVal × OCount)) (v : PyVal) : OCount :=
  ((stats.find? (fun kv => pyEq kv.1 v)).map (·.2)).getD ⟨0, 0⟩

/-- Winner tracking of lines 128-138 over the dict entries. -/
def winStepDyn (stats : List (PyVal × OCount)) (acc : ℕ × PyVal)
    (kv : PyVal × OCount) : ℕ × PyVal :=
  if acc.1 < kv.2.count then (kv.2.count, kv.1)
  else if kv.2.count = acc.1 ∧ 0 < acc.1 then
    let cur := if 0 < kv.2.count then kv.2.confidence_sum / (kv.2.count : ℚ) else 0
    let win := if 0 < acc.1 then (statsFind stats acc.2).confidence_sum / (acc.1 : ℚ) else 0
    if win < cur then (acc.1, kv.1) else acc
  else acc

/-- One `sentiment_breakdown` value (lines 122-126) as a Python dict. -/
def mkBEntry (d : OCount) (total : ℕ) : PyVal :=
  .dict [(.str "support_count", .int (d.count : ℤ)),
         (.str "support_percentage",
          .float (if 0 < total then roundTo 2 ((d.count : ℚ) / (total : ℚ) * 100) else 0)),
         (.str "avg_confidence",
          .float (if 0 < d.count then roundTo 4 (d.confidence_sum / (d.count : ℚ)) else 0))]

/-- Python `list.index` (first position under `==`). -/
def idxOfPy : List PyVal → PyVal → Option ℤ
  | [], _ => Option.none
  | a :: t, v => if pyEq a v then some 0 else (idxOfPy t v).map (· + 1)

/-- The tail of `_resolve_by_sentiment` after the tweet loop
(lines 111-166): raise when nothing was analyzed, compute breakdown and
winner over the accumulated `outcome_counts`, return the pending record
when the maximum count is zero, else assemble the decided record. -/
def finishSentiment (m outsV : PyVal) (outs : List PyVal)
    (st : List (PyVal × OCount) × ℕ) : Except PyExc PyVal :=
  if st.2 = 0 then .error (.valueError "No valid tweets could be analyzed for sentiment")
  else
  let breakdown := st.1.map (fun kv => (kv.1, mkBEntry kv.2 st.2))
  let win := st.1.foldl (winStepDyn st.1) (0, PyVal.none)
  if win.1 = 0 then pending_resolution m "sentiment" "Insufficient data for sentiment analysis"
  else
  let widx : Except PyExc ℤ :=
    if pyTruthy win.2 then
      match idxOfPy outs win.2 with
      | some i => .ok i
      | Option.none => .error (.valueError "is not in list")
    else .ok (-1)
  match widx with
  | .error e => .error e
  | .ok wi =>
  match pySub m "market_id" with
  | .error e => .error e
  | .ok mid =>
  match pySub m "question" with
  | .error e => .error e
  | .ok q =>
  .ok (.dict [(.str "market_id", mid),
              (.str "question", q),
              (.str "outcomes", outsV),
              (.str "winning_outcome", win.2),
              (.str "winning_index", .int wi),
              (.str "confidence", .float (roundTo 4 ((win.1 : ℚ) / (st.2 : ℚ)))),
              (.str "resolution_method", .str "sentiment"),
              (.str "sentiment_breakdown", .dict breakdown),
              (.str "total_analyzed", .int (st.2 : ℤ))])

/-- `_resolve_by_sentiment` (lines 80-166) on Python values.
`initialize_models` is not modelled (a load failure would surface as an
error record via the top-level handler, like any other exception). -/
def resolve_by_sentiment (cl : Cl) (m : PyVal) : Except PyExc PyVal :=
  match pySub m "outcomes" with
  | .error e => .error e
  | .ok outsV =>
  match pyIter outsV with
  | .error e => .error e
  | .ok outs =>
  if outs.any (fun o => !pyHashable o) then .error (.typeError "unhashable type")
  else
  let keys := dedupPy outs
  match pyGetD m "reply_tweets" (.list []) with
  | .error e => .error e
  | .ok rtV =>
  match pyIter rtV with
  | .error e => .error e
  | .ok tws =>
  finishSentiment m outsV outs (tws.foldl (dynStep cl outs keys) (initStats keys, 0))

/-- The guarded body of `resolve_market` (lines 59-74): validate, read
and lower-case the resolution method, dispatch. -/
def tryResolve (cl : Cl) (m : PyVal) : Except PyExc PyVal :=
  match validate_market_data m with
  | .error e => .error e
  | .ok _ =>
    match pyGetD m "resolution_method" (.str "sentiment") with
    | .error e => .error e
    | .ok rmV =>
      match pyLower rmV with
      | .error e => .error e
      | .ok rm =>
        if rm = "sentiment" then resolve_by_sentiment cl m
        else if rm = "oracle" then pending_resolution m "oracle" "Pending manual resolution"
        else if rm = "manual" then pending_resolution m "manual" "Pending manual resolution"
        else .error (.valueError ("Unsupported resolution method: " ++ rm))

/-- `resolve_market` (lines 49-78): any exception from the body is
caught and converted via `_create_error_response` — whose own `.get`
calls raise again when the input is not a dict, escaping the method. -/
def resolve_market (cl : Cl) (m : PyVal) : Except PyExc PyVal :=
  match tryResolve cl m with
  | .ok r => .ok r
  | .error e => create_error_response m (excMsg e)

/-- Field access on a record value (`None` when absent or not a dict). -/
def lookupStr (r : PyVal) (k : String) : Option PyVal :=
  match r with
  | .dict kvs => lookupPy kvs (.str k)
  | _ => Option.none

/-- Field access on a non-escaping call result. -/
def okLookup (e : Except PyExc PyVal) (k : String) : Option PyVal :=
  match e with
  | .ok r => lookupStr r k
  | .error _ => Option.none

/-! ### Statement helpers and concrete instances -/

/-- `support_percentage` of an outcome in closed form (lines 124). -/
def pctOf (outcomes : List String) (js : List Judgment) (o : String) : ℚ :=
  if 0 < totalA outcomes js then
    roundTo 2 ((cntA outcomes js o : ℚ) / (totalA outcomes js : ℚ) * 100)
  else 0

/-- `avg_confidence` of an outcome in closed form (line 125). -/
def avgOf (outcomes : List String) (js : List Judgment) (o : String) : ℚ :=
  if 0 < cntA outcomes js o then
    roundTo 4 (sumA outcomes js o / (cntA outcomes js o : ℚ))
  else 0

/-- Breakdown of a core result (empty for raise/pending outcomes). -/
def getBk : CoreResult → List (String × BEntry)
  | .decided r => r.sentiment_breakdown
  | .insufficientRaise _ => []
  | .pendingReturn _ => []

/-- Sum of the reported support percentages of a breakdown. -/
def sumPct (bk : List (String × BEntry)) : ℚ :=
  (bk.map (fun e => e.2.support_percentage)).sum

/-- Classifier returning an unclassified judgment (what `classify_tweet`
returns for blank text: `{"team": None, "confidence": 0.0}`). -/
def clNoneW : Cl := fun _ _ => .ok ⟨.none, 0⟩

/-- Classifier classifying every tweet as "Yes" with confidence 0.9. -/
def clYesW : Cl := fun _ _ => .ok ⟨.str "Yes", 9/10⟩

/-- Fields of a validated sentiment market whose only reply has blank
text. -/
def mktBlankKvs : List (PyVal × PyVal) :=
  [(.str "market_id", .str "m1"), (.str "question", .str "q"),
   (.str "outcomes", .list [.str "Yes", .str "No"]),
   (.str "resolution_method", .str "sentiment"),
   (.str "reply_tweets", .list [.dict [(.str "text", .str "")]])]

/-- A validated sentiment market whose only reply has blank text. -/
def mktBlank : PyVal := .dict mktBlankKvs

/-- A validated sentiment market with an empty `market_id` and one
classifiable reply. -/
def mktEmptyId : PyVal :=
  .dict [(.str "market_id", .str ""), (.str "question", .str "q"),
         (.str "outcomes", .list [.str "Yes", .str "No"]),
         (.str "resolution_method", .str "sentiment"),
         (.str "reply_tweets", .list [.dict [(.str "text", .str "moon")]])]

/-- Fields of an oracle market (mixed case) with reply tweets present. -/
def mktOracleKvs : List (PyVal × PyVal) :=
  [(.str "market_id", .str "m2"), (.str "question", .str "q"),
   (.str "outcomes", .list [.str "Yes", .str "No"]),
   (.str "resolution_method", .str "Oracle"),
   (.str "reply_tweets", .list [.dict [(.str "text", .str "moon")]])]

/-- An oracle market (mixed case) with reply tweets present. -/
def mktOracle : PyVal := .dict mktOracleKvs

/-- A manual market. -/
def mktManual : PyVal :=
  .dict [(.str "market_id", .str "m3"), (.str "question", .str "q"),
         (.str "outcomes", .list [.str "Yes", .str "No"]),
         (.str "resolution_method", .str "manual")]

/-- The five-judgment scenario of the spec (three "Yes" at 0.9/0.8/0.7,
two "No" at 0.75/0.65). -/
def scenJs : List Judgment :=
  [⟨some "Yes", 9/10⟩, ⟨some "Yes", 8/10⟩, ⟨some "Yes", 7/10⟩,
   ⟨some "No", 75/100⟩, ⟨some "No", 65/100⟩]

/-- Twenty-five distinct outcomes. -/
def os25 : List String :=
  ["a", "b", "c", "d", "e", "f", "g", "h", "i", "j", "k", "l", "m",
   "n", "o", "p", "q", "r", "s", "t", "u", "v", "w", "x", "y"]

/-- Thirty-two accepted judgments: one for each of the first 24
outcomes, eight for the last. -/
def js32 : List Judgment :=
  (["a", "b", "c", "d", "e", "f", "g", "h", "i", "j", "k", "l", "m",
    "n", "o", "p", "q", "r", "s", "t", "u", "v", "w", "x"].map
      (fun o => (⟨some o, 9/10⟩ : Judgment))) ++
    List.replicate 8 ⟨some "y", 9/10⟩

/-- Classifier mapping a tweet text to team "T" with confidence equal to
the text length. -/
def wClT : String → Judgment := fun s => ⟨some "T", (s.length : ℚ)⟩

/-- 101 tweets of pairwise distinct text lengths. -/
def wTweets : List STweet :=
  (List.range 101).map (fun i => ⟨"", "u", String.mk (List.replicate i 'a')⟩)

/-- A dict association list holds a key equal to the string `k`. -/
def hasKeyStr (kvs : List (PyVal × PyVal)) (k : String) : Bool :=
  kvs.any (fun kv => pyEq kv.1 (.str k))

/-- Mean confidence `confidence_sum / count` of an accumulator entry. -/
def meanOf (stats : String → OCount) (o : String) : ℚ :=
  (stats o).confidence_sum / ((stats o).count : ℚ)

/-- Invariant of the winner-tracking loop of lines 128-138 after the
keys in `processed` have been handled: with a zero maximum nothing has a
positive count and no winner is recorded; with a positive maximum the
recorded winner attains it, every processed key is bounded by it, and
among processed keys attaining it the winner has the greatest mean
confidence, earliest key first on equal means. -/
def WinInv (stats : String → OCount) (processed : List String)
    (acc : ℕ × Option String) : Prop :=
  (acc.1 = 0 → acc.2 = Option.none ∧ ∀ o ∈ processed, (stats o).count = 0)
  ∧ (0 < acc.1 → ∃ w, acc.2 = some w ∧ w ∈ processed ∧ (stats w).count = acc.1
      ∧ (∀ o ∈ processed, (stats o).count ≤ acc.1)
      ∧ (∀ o ∈ processed, (stats o).count = acc.1 →
            meanOf stats o ≤ meanOf stats w
            ∧ (meanOf stats o = meanOf stats w →
                processed.indexOf w ≤ processed.indexOf o)))

/-! ## Theorems -/

/-! ### Rounding bounds -/

theorem ratFloor_eq_intFloor (q : ℚ) : Rat.floor q = ⌊q⌋ :=
  le_antisymm (Int.le_floor.mpr (Rat.le_floor.mp (le_refl _)))
    (Rat.le_floor.mpr (Int.floor_le q))

theorem rndHalfEven_abs_le (q : ℚ) : |(rndHalfEven q : ℚ) - q| ≤ 1/2 := by
  have hfl : (⌊q⌋ : ℚ) ≤ q := Int.floor_le q
  have hfu : q < (⌊q⌋ : ℚ) + 1 := Int.lt_floor_add_one q
  have hq : rndHalfEven q =
      if q - Rat.floor q < 1/2 then Rat.floor q
      else if 1/2 < q - Rat.floor q then Rat.floor q + 1
      else if Rat.floor q % 2 = 0 then Rat.floor q else Rat.floor q + 1 := rfl
  rw [hq, ratFloor_eq_intFloor]
  split_ifs with h1 h2 h3 <;> push_cast <;> rw [abs_le] <;> constructor <;> linarith

theorem roundTo_abs_le (n : ℕ) (q : ℚ) : |roundTo n q - q| ≤ 1 / (2 * 10 ^ n) := by
  have hp : (0:ℚ) < 10 ^ n := by positivity
  have h := rndHalfEven_abs_le (q * 10 ^ n)
  rw [roundTo, show (rndHalfEven (q * 10 ^ n) : ℚ) / 10 ^ n - q
      = ((rndHalfEven (q * 10 ^ n) : ℚ) - q * 10 ^ n) / 10 ^ n by field_simp; ring,
    abs_div, abs_of_pos hp,
    show (1:ℚ) / (2 * 10 ^ n) = (1/2) / 10 ^ n by rw [div_div]]
  gcongr

/-! ### Closed form of the accumulation fold -/

theorem acceptB_some (os : List String) (t : String) (c : ℚ) :
    acceptB os ⟨some t, c⟩ = (decide ((6/10 : ℚ) ≤ c) && decide (t ∈ os)) := by
  simp [acceptB]

theorem acceptB_none (os : List String) (c : ℚ) :
    acceptB os ⟨Option.none, c⟩ = false := by
  simp [acceptB]

theorem isFor_some (os : List String) (o t : String) (c : ℚ) :
    isFor os o ⟨some t, c⟩
      = (decide ((6/10 : ℚ) ≤ c) && decide (t ∈ os) && decide (t = o)) := by
  by_cases h : t = o <;> simp [isFor, acceptB_some, Bool.and_assoc, h]

theorem aggfold_closed (os : List String) (js : List Judgment) :
    ∀ (s : String → OCount) (n : ℕ),
      js.foldl (aggStep os) (s, n)
        = (fun o => ⟨(s o).count + cntA os js o, (s o).confidence_sum + sumA os js o⟩,
           n + totalA os js) := by
  induction js with
  | nil => intro s n; simp [cntA, sumA, totalA]
  | cons j js ih =>
    intro s n
    rcases j with ⟨tm, c⟩
    rw [List.foldl_cons]
    rcases tm with _ | t
    · rw [show aggStep os (s, n) ⟨Option.none, c⟩ = (s, n) from rfl, ih s n]
      simp [cntA, sumA, totalA, List.countP_cons, List.filter_cons, isFor, acceptB_none]
    · by_cases hc : (6/10 : ℚ) ≤ c ∧ t ∈ os
      · rw [show aggStep os (s, n) ⟨some t, c⟩
            = (fun o => if o = t then
                  ⟨(s o).count + 1, (s o).confidence_sum + c⟩ else s o, n + 1) by
              simp [aggStep, hc], ih]
        refine Prod.ext (funext fun o => ?_) ?_
        · by_cases ho : o = t
          · subst ho
            simp [cntA, sumA, totalA, List.countP_cons, List.filter_cons,
              isFor_some, hc.1, hc.2]
            exact ⟨by omega, by ring⟩
          · simp [cntA, sumA, totalA, List.countP_cons, List.filter_cons,
              isFor_some, ho, Ne.symm ho]
        · simp [totalA, List.countP_cons, acceptB_some, hc.1, hc.2]
          omega
      · rw [show aggStep os (s, n) ⟨some t, c⟩ = (s, n) by simp [aggStep, hc], ih]
        have hb : acceptB os ⟨some t, c⟩ = false := by
          rw [acceptB_some]
          rcases not_and_or.mp hc with h | h <;> simp [h]
        have hf : ∀ o, isFor os o ⟨some t, c⟩ = false := by
          intro o; simp [isFor, hb]
        simp [cntA, sumA, totalA, List.countP_cons, List.filter_cons, hf, hb]

theorem aggregate_closed (os : List String) (js : List Judgment) :
    aggregate os js
      = (fun o => ⟨cntA os js o, sumA os js o⟩, totalA os js) := by
  rw [aggregate, aggfold_closed]
  simp

/-! ### Permutation invariance of the accumulated statistics -/

theorem cntA_perm (os : List String) {js js' : List Judgment} (h : js.Perm js')
    (o : String) : cntA os js o = cntA os js' o :=
  h.countP_eq _

theorem sumA_perm (os : List String) {js js' : List Judgment} (h : js.Perm js')
    (o : String) : sumA os js o = sumA os js' o :=
  ((h.filter _).map _).sum_eq

theorem totalA_perm (os : List String) {js js' : List Judgment} (h : js.Perm js') :
    totalA os js = totalA os js' :=
  h.countP_eq _

theorem aggregate_perm (os : List String) {js js' : List Judgment} (h : js.Perm js') :
    aggregate os js = aggregate os js' := by
  rw [aggregate_closed, aggregate_closed]
  refine Prod.ext (funext fun o => ?_) (totalA_perm os h)
  simp only [cntA_perm os h, sumA_perm os h]

/-- C8: for a fixed outcome set, sentiment resolution yields the same
result (winner, confidence, breakdown, total) on any two permutations of
the judgment sequence — accumulation is order-independent. -/
theorem c8_resolution_order_invariant (os : List String) (js js' : List Judgment)
    (h : js.Perm js') :
    resolveSentimentCore os js = resolveSentimentCore os js' := by
  simp only [resolveSentimentCore, aggregate_perm os h]

/-- Witness for C8 at a two-element swap. -/
theorem c8_resolution_order_invariant_witness :
    ([⟨some "A", 7/10⟩, ⟨some "B", 9/10⟩] : List Judgment).Perm
        [⟨some "B", 9/10⟩, ⟨some "A", 7/10⟩]
    ∧ resolveSentimentCore ["A", "B"] [⟨some "A", 7/10⟩, ⟨some "B", 9/10⟩]
      = resolveSentimentCore ["A", "B"] [⟨some "B", 9/10⟩, ⟨some "A", 7/10⟩] :=
  ⟨List.Perm.swap _ _ _,
   c8_resolution_order_invariant _ _ _ (List.Perm.swap _ _ _)⟩

/-! ### The per-judgment contribution law -/

theorem acceptB_eq_false_of (os : List String) (j : Judgment)
    (h : j.team = Option.none ∨ j.confidence < 6/10 ∨ (∀ t, j.team = some t → t ∉ os)) :
    acceptB os j = false := by
  rcases j with ⟨tm, c⟩
  rcases tm with _ | t
  · exact acceptB_none os c
  · rcases h with h | h | h
    · exact absurd h (by simp)
    · simp only at h
      rw [acceptB_some]
      simp [not_le.mpr h]
    · rw [acceptB_some]
      simp [h t rfl]

/-- C4: a judgment with `None` label, confidence below 0.6, or a label
outside the outcome set leaves every outcome's count and confidence sum
and `total_analyzed` unchanged; an accepted judgment bumps exactly its
outcome's count by one, its confidence sum by the judgment's confidence,
and `total_analyzed` by one. -/
theorem c4_threshold_law (os : List String) (l₁ l₂ : List Judgment) (j : Judgment) :
    ((j.team = Option.none ∨ j.confidence < 6/10 ∨ (∀ t, j.team = some t → t ∉ os)) →
        aggregate os (l₁ ++ j :: l₂) = aggregate os (l₁ ++ l₂))
    ∧ (∀ t, j.team = some t → (6/10 : ℚ) ≤ j.confidence → t ∈ os →
        ((aggregate os (l₁ ++ j :: l₂)).1 t).count
            = ((aggregate os (l₁ ++ l₂)).1 t).count + 1
        ∧ ((aggregate os (l₁ ++ j :: l₂)).1 t).confidence_sum
            = ((aggregate os (l₁ ++ l₂)).1 t).confidence_sum + j.confidence
        ∧ (∀ o, o ≠ t → (aggregate os (l₁ ++ j :: l₂)).1 o = (aggregate os (l₁ ++ l₂)).1 o)
        ∧ (aggregate os (l₁ ++ j :: l₂)).2 = (aggregate os (l₁ ++ l₂)).2 + 1) := by
  constructor
  · intro h
    have hb : acceptB os j = false := acceptB_eq_false_of os j h
    have hf : ∀ o, isFor os o j = false := fun o => by simp [isFor, hb]
    rw [aggregate_closed, aggregate_closed]
    refine Prod.ext (funext fun o => ?_) ?_
    · simp [cntA, sumA, List.countP_append, List.countP_cons,
        List.filter_append, List.filter_cons, hf o]
    · simp [totalA, List.countP_append, List.countP_cons, hb]
  · intro t ht hconf hmem
    rcases j with ⟨tm, c⟩
    simp only at ht
    subst ht
    simp only at hconf
    have hb : acceptB os ⟨some t, c⟩ = true := by
      rw [acceptB_some]; simp [hconf, hmem]
    have hft : isFor os t ⟨some t, c⟩ = true := by
      rw [isFor_some]; simp [hconf, hmem]
    refine ⟨?_, ?_, ?_, ?_⟩
    · rw [aggregate_closed, aggregate_closed]
      simp [cntA, List.countP_append, List.countP_cons, hft]
      omega
    · rw [aggregate_closed, aggregate_closed]
      simp [sumA, List.filter_append, List.filter_cons, hft]
      ring
    · intro o ho
      have hfo : isFor os o ⟨some t, c⟩ = false := by
        rw [isFor_some]
        simp [show ¬ t = o from fun h => ho h.symm]
      rw [aggregate_closed, aggregate_closed]
      simp [cntA, sumA, List.countP_append, List.countP_cons,
        List.filter_append, List.filter_cons, hfo]
    · rw [aggregate_closed, aggregate_closed]
      simp [totalA, List.countP_append, List.countP_cons, hb]
      omega

/-- Witness for C4: one accepted "Yes" judgment at confidence 0.9. -/
theorem c4_threshold_law_witness :
    ((6 : ℚ)/10 ≤ 9/10)
    ∧ ((aggregate ["Yes", "No"] [⟨some "Yes", 9/10⟩]).1 "Yes").count
        = ((aggregate ["Yes", "No"] ([] : List Judgment)).1 "Yes").count + 1
    ∧ (aggregate ["Yes", "No"] [⟨some "Yes", 9/10⟩]).2
        = (aggregate ["Yes", "No"] ([] : List Judgment)).2 + 1 := by
  have h := (c4_threshold_law ["Yes", "No"] [] [] ⟨some "Yes", 9/10⟩).2 "Yes" rfl
      (by with_unfolding_all decide) (by decide)
  exact ⟨by with_unfolding_all decide, h.1, h.2.2.2⟩

/-! ### Dict-key order and the percentage invariant -/

theorem mem_dedupKeysAux (l : List String) :
    ∀ (seen : List String) (a : String),
      a ∈ dedupKeysAux seen l ↔ a ∈ l ∧ a ∉ seen := by
  induction l with
  | nil => intro seen a; simp [dedupKeysAux]
  | cons b t ih =>
    intro seen a
    rw [dedupKeysAux]
    by_cases hb : b ∈ seen
    · rw [if_pos hb, ih]
      constructor
      · rintro ⟨h1, h2⟩
        exact ⟨List.mem_cons_of_mem b h1, h2⟩
      · rintro ⟨h1, h2⟩
        rcases List.mem_cons.mp h1 with h | h
        · subst h; exact absurd hb h2
        · exact ⟨h, h2⟩
    · rw [if_neg hb]
      constructor
      · intro hm
        rcases List.mem_cons.mp hm with h | h
        · subst h; exact ⟨List.mem_cons_self a t, hb⟩
        · rcases (ih (b :: seen) a).mp h with ⟨h1, h2⟩
          exact ⟨List.mem_cons_of_mem b h1, fun hs => h2 (List.mem_cons_of_mem b hs)⟩
      · rintro ⟨h1, h2⟩
        rcases List.mem_cons.mp h1 with h | h
        · subst h; exact List.mem_cons_self a _
        · by_cases hab : a = b
          · subst hab; exact List.mem_cons_self a _
          · refine List.mem_cons_of_mem b ((ih (b :: seen) a).mpr ⟨h, fun hs => ?_⟩)
            rcases List.mem_cons.mp hs with h3 | h3
            · exact hab h3
            · exact h2 h3

theorem mem_dedupKeys (l : List String) (a : String) :
    a ∈ dedupKeys l ↔ a ∈ l := by
  rw [dedupKeys, mem_dedupKeysAux]
  simp

theorem nodup_dedupKeysAux (l : List String) :
    ∀ seen : List String, (dedupKeysAux seen l).Nodup := by
  induction l with
  | nil => intro seen; simp [dedupKeysAux]
  | cons b t ih =>
    intro seen
    rw [dedupKeysAux]
    by_cases hb : b ∈ seen
    · simpa [hb] using ih seen
    · simp only [hb, if_false, List.nodup_cons]
      refine ⟨fun hmem => ?_, ih (b :: seen)⟩
      exact ((mem_dedupKeysAux t (b :: seen) b).mp hmem).2 (List.mem_cons_self b seen)

theorem nodup_dedupKeys (l : List String) : (dedupKeys l).Nodup :=
  nodup_dedupKeysAux l []

theorem dedupKeysAux_eq_self (l : List String) :
    ∀ seen : List String, l.Nodup → (∀ x ∈ l, x ∉ seen) → dedupKeysAux seen l = l := by
  induction l with
  | nil => intro seen _ _; rfl
  | cons b t ih =>
    intro seen hnd hdis
    rw [dedupKeysAux, if_neg (hdis b (List.mem_cons_self b t))]
    rw [ih (b :: seen) (List.nodup_cons.mp hnd).2]
    intro x hx
    intro hmem
    rcases List.mem_cons.mp hmem with h | h
    · exact (List.nodup_cons.mp hnd).1 (h ▸ hx)
    · exact hdis x (List.mem_cons_of_mem b hx) h

theorem dedupKeys_eq_self {l : List String} (h : l.Nodup) : dedupKeys l = l :=
  dedupKeysAux_eq_self l [] h (by simp)

theorem sum_indicator_one {l : List String} (hnd : l.Nodup) {t : String} (ht : t ∈ l) :
    (l.map (fun o => if t = o then (1:ℕ) else 0)).sum = 1 := by
  induction l with
  | nil => cases ht
  | cons a r ih =>
    rcases List.mem_cons.mp ht with h | h
    · subst h
      have hz : (List.map (fun o => if t = o then (1:ℕ) else 0) r).sum = 0 := by
        apply List.sum_eq_zero
        intro x hx
        rcases List.mem_map.mp hx with ⟨o, ho, rfl⟩
        have hto : t ≠ o := fun he => (List.nodup_cons.mp hnd).1 (he ▸ ho)
        simp [hto]
      simp [hz]
    · have hta : t ≠ a := fun he => (List.nodup_cons.mp hnd).1 (he ▸ h)
      simp only [List.map_cons, List.sum_cons, if_neg hta]
      rw [ih (List.nodup_cons.mp hnd).2 h]

theorem sum_cntA_eq_totalA (os : List String) (js : List Judgment) :
    ((dedupKeys os).map (cntA os js)).sum = totalA os js := by
  induction js with
  | nil =>
    rw [show totalA os [] = 0 from rfl, List.sum_eq_zero]
    intro x hx
    rcases List.mem_map.mp hx with ⟨o, _, rfl⟩
    rfl
  | cons j js ih =>
    have hcnt : ∀ o, cntA os (j :: js) o
        = cntA os js o + (if isFor os o j then 1 else 0) := by
      intro o; simp [cntA, List.countP_cons]
    have htot : totalA os (j :: js)
        = totalA os js + (if acceptB os j then 1 else 0) := by
      simp [totalA, List.countP_cons]
    rw [htot, ← ih]
    rw [show (dedupKeys os).map (cntA os (j :: js))
        = (dedupKeys os).map (fun o => cntA os js o + (if isFor os o j then 1 else 0))
        from List.map_congr_left (fun o _ => hcnt o)]
    rw [List.sum_map_add]
    congr 1
    by_cases hb : acceptB os j = true
    · rcases j with ⟨tm, c⟩
      rcases tm with _ | t
      · rw [acceptB_none] at hb; cases hb
      · have hmem : t ∈ os := by
          rw [acceptB_some] at hb
          simpa using (Bool.and_eq_true_iff.mp hb).2
        have hind : ∀ o, (if isFor os o ⟨some t, c⟩ then (1:ℕ) else 0)
            = (if t = o then (1:ℕ) else 0) := by
          intro o
          rw [isFor_some]
          rw [acceptB_some] at hb
          rcases Bool.and_eq_true_iff.mp hb with ⟨h1, h2⟩
          by_cases hto : t = o
          · subst hto; simp [h1, h2]
          · simp [h1, h2, hto]
        rw [show ((dedupKeys os).map (fun o => if isFor os o ⟨some t, c⟩ then (1:ℕ) else 0))
            = ((dedupKeys os).map (fun o => if t = o then (1:ℕ) else 0))
            from List.map_congr_left (fun o _ => hind o)]
        rw [sum_indicator_one (nodup_dedupKeys os) ((mem_dedupKeys os t).mpr hmem)]
        simp [hb]
    · have hb' : acceptB os j = false := by
        cases h : acceptB os j
        · rfl
        · exact absurd h hb
      have hf : ∀ o, isFor os o j = false := fun o => by simp [isFor, hb']
      rw [List.sum_eq_zero, if_neg (by simp [hb'])]
      intro x hx
      rcases List.mem_map.mp hx with ⟨o, _, rfl⟩
      simp [hf o]

theorem sum_map_mul_const (l : List String) (g : String → ℚ) (c : ℚ) :
    (l.map (fun o => g o * c)).sum = (l.map g).sum * c := by
  induction l with
  | nil => simp
  | cons a t ih => simp [ih]; ring

theorem sum_map_cast (l : List String) (g : String → ℕ) :
    (l.map (fun o => (g o : ℚ))).sum = ((l.map g).sum : ℚ) := by
  induction l with
  | nil => simp
  | cons a t ih => push_cast; simp [ih]

theorem sum_roundTo_bound (l : List String) (f : String → ℚ) :
    |(l.map (fun o => roundTo 2 (f o))).sum - (l.map f).sum| ≤ (l.length : ℚ) / 200 := by
  induction l with
  | nil => simp
  | cons a t ih =>
    simp only [List.map_cons, List.sum_cons, List.length_cons]
    have h1 := roundTo_abs_le 2 (f a)
    rw [show (1:ℚ) / (2 * 10 ^ 2) = 1/200 by norm_num] at h1
    rw [show roundTo 2 (f a) + (t.map (fun o => roundTo 2 (f o))).sum
          - (f a + (t.map f).sum)
        = (roundTo 2 (f a) - f a)
          + ((t.map (fun o => roundTo 2 (f o))).sum - (t.map f).sum) by ring]
    calc |(roundTo 2 (f a) - f a)
          + ((t.map (fun o => roundTo 2 (f o))).sum - (t.map f).sum)|
        ≤ |roundTo 2 (f a) - f a|
          + |(t.map (fun o => roundTo 2 (f o))).sum - (t.map f).sum| := abs_add _ _
      _ ≤ 1/200 + (t.length : ℚ) / 200 := add_le_add h1 ih
      _ = ((t.length : ℚ) + 1) / 200 := by ring
      _ = (((t.length + 1 : ℕ)) : ℚ) / 200 := by push_cast; ring

/-- C9 (amended): in every sentiment breakdown, each outcome's entry
carries `support_count = count`, `support_percentage =
round(count/total*100, 2)` guarded to 0 when `total_analyzed == 0`, and
`avg_confidence = round(confidence_sum/count, 4)` guarded to 0 when
`count == 0`; when `total_analyzed > 0` the support percentages sum to
within `k/200` of 100 where `k` is the number of outcomes (the claimed
fixed tolerance 0.1 only covers up to 20 outcomes — see the
counterexample); when `total_analyzed == 0` every percentage is 0. -/
theorem finalize_closed (os : List String) (js : List Judgment) (hnd : os.Nodup) :
    finalize os (aggregate os js).1 (aggregate os js).2
      = os.map (fun o => (o, ⟨cntA os js o, pctOf os js o, avgOf os js o⟩)) := by
  rw [aggregate_closed, finalize, dedupKeys_eq_self hnd]
  rfl

theorem c9_percentage_invariant (os : List String) (js : List Judgment)
    (hnd : os.Nodup) :
    finalize os (aggregate os js).1 (aggregate os js).2
        = os.map (fun o => (o, ⟨cntA os js o, pctOf os js o, avgOf os js o⟩))
    ∧ (0 < totalA os js →
        |sumPct (finalize os (aggregate os js).1 (aggregate os js).2) - 100|
          ≤ (os.length : ℚ) / 200)
    ∧ (totalA os js = 0 →
        ∀ e ∈ finalize os (aggregate os js).1 (aggregate os js).2,
          e.2.support_percentage = 0) := by
  have hfin := finalize_closed os js hnd
  refine ⟨hfin, ?_, ?_⟩
  · intro htot
    have hT : ((totalA os js : ℚ)) ≠ 0 := by
      have h0 : (0:ℚ) < (totalA os js : ℚ) := by exact_mod_cast htot
      exact ne_of_gt h0
    rw [hfin]
    have hsp : sumPct (os.map (fun o => (o, ⟨cntA os js o, pctOf os js o, avgOf os js o⟩)))
        = (os.map (fun o => pctOf os js o)).sum := by
      rw [sumPct, List.map_map]
      rfl
    rw [hsp]
    have hpct : (os.map (fun o => pctOf os js o))
        = os.map (fun o =>
            roundTo 2 ((cntA os js o : ℚ) / (totalA os js : ℚ) * 100)) := by
      apply List.map_congr_left
      intro o _
      rw [pctOf, if_pos htot]
    rw [hpct]
    have hx : (os.map (fun o => (cntA os js o : ℚ) / (totalA os js : ℚ) * 100)).sum
        = 100 := by
      rw [show (os.map (fun o => (cntA os js o : ℚ) / (totalA os js : ℚ) * 100))
          = os.map (fun o => ((cntA os js o : ℚ)) * (100 / (totalA os js : ℚ))) from
            List.map_congr_left (fun o _ => by ring)]
      rw [sum_map_mul_const, sum_map_cast]
      have hs := sum_cntA_eq_totalA os js
      rw [dedupKeys_eq_self hnd] at hs
      rw [hs]
      field_simp
    calc |(os.map (fun o =>
            roundTo 2 ((cntA os js o : ℚ) / (totalA os js : ℚ) * 100))).sum - 100|
        = |(os.map (fun o =>
            roundTo 2 ((cntA os js o : ℚ) / (totalA os js : ℚ) * 100))).sum
          - (os.map (fun o => (cntA os js o : ℚ) / (totalA os js : ℚ) * 100)).sum| := by
          rw [hx]
      _ ≤ (os.length : ℚ) / 200 := sum_roundTo_bound os _
  · intro htot e he
    rw [hfin] at he
    rcases List.mem_map.mp he with ⟨o, _, rfl⟩
    simp [pctOf, htot]

set_option maxRecDepth 8000 in
set_option maxHeartbeats 1000000 in
/-- C9 counterexample: with 25 outcomes, 24 of count 1 and one of count
8 over 32 analyzed items, the reported percentages are 24 × 3.12 + 25.00
= 99.88 — off from 100 by 0.12 > 0.1, refuting the fixed 0.1 tolerance. -/
theorem c9_percentage_counterexample :
    sumPct (finalize os25 (aggregate os25 js32).1 (aggregate os25 js32).2) = 2497/25
    ∧ 0 < totalA os25 js32
    ∧ ¬ (|sumPct (finalize os25 (aggregate os25 js32).1 (aggregate os25 js32).2)
          - 100| ≤ 1/10) := by
  have hnd : os25.Nodup := by decide
  have hs : sumPct (finalize os25 (aggregate os25 js32).1 (aggregate os25 js32).2)
      = (os25.map (fun o => pctOf os25 js32 o)).sum := by
    rw [finalize_closed os25 js32 hnd, sumPct, List.map_map]
    rfl
  have hhalf1 : ((["a", "b", "c", "d", "e", "f", "g", "h", "i", "j", "k", "l"].map
      (fun o => pctOf os25 js32 o)).sum) = 936/25 := by with_unfolding_all decide
  have hhalf2 : ((["m", "n", "o", "p", "q", "r", "s", "t", "u", "v", "w", "x", "y"].map
      (fun o => pctOf os25 js32 o)).sum) = 1561/25 := by with_unfolding_all decide
  have hsplit : os25 = ["a", "b", "c", "d", "e", "f", "g", "h", "i", "j", "k", "l"]
      ++ ["m", "n", "o", "p", "q", "r", "s", "t", "u", "v", "w", "x", "y"] := rfl
  have hsum : (os25.map (fun o => pctOf os25 js32 o)).sum = 2497/25 := by
    nth_rewrite 2 [hsplit]
    rw [List.map_append, List.sum_append, hhalf1, hhalf2]
    norm_num
  refine ⟨by rw [hs, hsum], by with_unfolding_all decide, ?_⟩
  rw [hs, hsum,
    show (2497:ℚ)/25 - 100 = -(3/25) by norm_num,
    abs_neg, abs_of_pos (by norm_num : (0:ℚ) < 3/25)]
  norm_num

/-- Witness for C9 at two outcomes and one accepted judgment. -/
theorem c9_percentage_invariant_witness :
    (["A", "B"] : List String).Nodup
    ∧ 0 < totalA ["A", "B"] [⟨some "A", 9/10⟩]
    ∧ |sumPct (finalize ["A", "B"]
          (aggregate ["A", "B"] [⟨some "A", 9/10⟩]).1
          (aggregate ["A", "B"] [⟨some "A", 9/10⟩]).2) - 100|
        ≤ ((["A", "B"] : List String).length : ℚ) / 200 :=
  ⟨by decide, by with_unfolding_all decide,
   (c9_percentage_invariant ["A", "B"] [⟨some "A", 9/10⟩] (by decide)).2.1
     (by with_unfolding_all decide)⟩

/-! ### The winner-tracking loop -/

theorem winStep_lt (stats : String → OCount) (m : ℕ) (w? : Option String) (k : String)
    (h : m < (stats k).count) :
    winStep stats (m, w?) k = ((stats k).count, some k) := by
  simp only [winStep]
  rw [if_pos h]

theorem winStep_tie (stats : String → OCount) (m : ℕ) (w k : String)
    (hc : (stats k).count = m) (hm : 0 < m) :
    winStep stats (m, some w) k =
      (if (stats w).confidence_sum / (m : ℚ)
          < (stats k).confidence_sum / ((stats k).count : ℚ)
       then (m, some k) else (m, some w)) := by
  simp only [winStep]
  rw [if_neg (by omega), if_pos ⟨hc, hm⟩, if_pos (by omega : 0 < (stats k).count),
    if_pos hm]

theorem winStep_le (stats : String → OCount) (m : ℕ) (w? : Option String) (k : String)
    (h1 : ¬ m < (stats k).count) (h2 : ¬ ((stats k).count = m ∧ 0 < m)) :
    winStep stats (m, w?) k = (m, w?) := by
  simp only [winStep]
  rw [if_neg h1, if_neg h2]

theorem winStep_inv (stats : String → OCount) (processed : List String) (k : String)
    (acc : ℕ × Option String)
    (hnd : (processed ++ [k]).Nodup)
    (hInv : WinInv stats processed acc) :
    WinInv stats (processed ++ [k]) (winStep stats acc k) := by
  rcases acc with ⟨m, w?⟩
  obtain ⟨hz, hp⟩ := hInv
  have hknotin : k ∉ processed := by
    intro hk
    exact (List.disjoint_of_nodup_append hnd) hk (List.mem_singleton_self k)
  have hub : ∀ o ∈ processed, (stats o).count ≤ m := by
    rcases Nat.eq_zero_or_pos m with h0 | h0
    · intro o ho
      rw [(hz h0).2 o ho, h0]
    · rcases hp h0 with ⟨w, _, _, _, hub', _⟩
      exact hub'
  have hmemsplit : ∀ {o : String}, o ∈ processed ++ [k] → o ∈ processed ∨ o = k := by
    intro o ho
    rcases List.mem_append.mp ho with h | h
    · exact Or.inl h
    · exact Or.inr (List.mem_singleton.mp h)
  have hidxl : ∀ {a : String}, a ∈ processed →
      (processed ++ [k]).indexOf a = processed.indexOf a := by
    intro a ha
    exact List.indexOf_append_of_mem ha
  have hidxk : processed.length ≤ (processed ++ [k]).indexOf k := by
    rw [List.indexOf_append_of_not_mem hknotin]
    omega
  by_cases h1 : m < (stats k).count
  · -- strictly larger count: k takes over
    rw [winStep_lt stats m w? k h1]
    constructor
    · intro h0
      omega
    · intro _
      refine ⟨k, rfl, List.mem_append_right _ (List.mem_singleton_self k), rfl, ?_, ?_⟩
      · intro o ho
        rcases hmemsplit ho with h | h
        · exact le_trans (hub o h) (le_of_lt h1)
        · subst h; exact le_refl _
      · intro o ho hco
        rcases hmemsplit ho with h | h
        · exact absurd hco (by have := hub o h; omega)
        · subst h
          exact ⟨le_refl _, fun _ => le_refl _⟩
  · by_cases h2 : (stats k).count = m ∧ 0 < m
    · -- tie on a positive count: mean comparison against the winner
      rcases hp h2.2 with ⟨w, hw2, hwmem, hwcnt, _, htie⟩
      rcases w? with _ | w'
      · cases hw2
      · cases hw2
        rw [winStep_tie stats m w k h2.1 h2.2]
        have hcurk : (stats k).confidence_sum / ((stats k).count : ℚ) = meanOf stats k := rfl
        have hcurw : (stats w).confidence_sum / (m : ℚ) = meanOf stats w := by
          rw [meanOf, hwcnt]
        rw [hcurk, hcurw]
        by_cases h3 : meanOf stats w < meanOf stats k
        · rw [if_pos h3]
          constructor
          · intro h0; omega
          · intro _
            refine ⟨k, rfl, List.mem_append_right _ (List.mem_singleton_self k),
              h2.1, ?_, ?_⟩
            · intro o ho
              rcases hmemsplit ho with h | h
              · exact hub o h
              · subst h; exact le_of_eq h2.1
            · intro o ho hco
              rcases hmemsplit ho with h | h
              · have hole := (htie o h hco).1
                refine ⟨le_of_lt (lt_of_le_of_lt hole h3), fun he => ?_⟩
                exact absurd he (ne_of_lt (lt_of_le_of_lt hole h3))
              · subst h
                exact ⟨le_refl _, fun _ => le_refl _⟩
        · rw [if_neg h3]
          constructor
          · intro h0; omega
          · intro _
            refine ⟨w, rfl, List.mem_append_left _ hwmem, hwcnt, ?_, ?_⟩
            · intro o ho
              rcases hmemsplit ho with h | h
              · exact hub o h
              · subst h; exact le_of_eq h2.1
            · intro o ho hco
              rcases hmemsplit ho with h | h
              · have := htie o h hco
                refine ⟨this.1, fun he => ?_⟩
                rw [hidxl hwmem, hidxl h]
                exact this.2 he
              · subst h
                refine ⟨not_lt.mp h3, fun _ => ?_⟩
                rw [hidxl hwmem]
                exact le_trans (le_of_lt (List.indexOf_lt_length.mpr hwmem)) hidxk
    · -- strictly smaller count (or still nothing seen): state unchanged
      rw [winStep_le stats m w? k h1 h2]
      constructor
      · intro h0
        obtain ⟨ha, hb⟩ := hz h0
        refine ⟨ha, ?_⟩
        intro o ho
        rcases hmemsplit ho with h | h
        · exact hb o h
        · subst h
          omega
      · intro hpos
        rcases hp hpos with ⟨w, hw2, hwmem, hwcnt, _, htie⟩
        have hklt : (stats k).count < m := by
          rcases Nat.lt_or_ge (stats k).count m with h | h
          · exact h
          · exact absurd ⟨by omega, hpos⟩ h2
        refine ⟨w, hw2, List.mem_append_left _ hwmem, hwcnt, ?_, ?_⟩
        · intro o ho
          rcases hmemsplit ho with h | h
          · exact hub o h
          · subst h; exact le_of_lt hklt
        · intro o ho hco
          rcases hmemsplit ho with h | h
          · have := htie o h hco
            refine ⟨this.1, fun he => ?_⟩
            rw [hidxl hwmem, hidxl h]
            exact this.2 he
          · subst h
            omega

theorem winFold_inv (stats : String → OCount) :
    ∀ (rest processed : List String) (acc : ℕ × Option String),
      (processed ++ rest).Nodup → WinInv stats processed acc →
      WinInv stats (processed ++ rest) (rest.foldl (winStep stats) acc) := by
  intro rest
  induction rest with
  | nil =>
    intro processed acc hnd hInv
    simpa using hInv
  | cons k rest ih =>
    intro processed acc hnd hInv
    have hassoc : processed ++ k :: rest = (processed ++ [k]) ++ rest := by
      simp
    rw [hassoc] at hnd ⊢
    rw [List.foldl_cons]
    exact ih (processed ++ [k]) (winStep stats acc k)
      hnd
      (winStep_inv stats processed k acc
        (by
          have := hnd.sublist (List.sublist_append_left _ _)
          exact this)
        hInv)

theorem winFold_char (stats : String → OCount) (keys : List String)
    (hnd : keys.Nodup) :
    WinInv stats keys (keys.foldl (winStep stats) (0, Option.none)) := by
  have h0 : WinInv stats [] (0, Option.none) := by
    constructor
    · intro _
      exact ⟨rfl, by simp⟩
    · intro h
      omega
  have := winFold_inv stats keys [] (0, Option.none) (by simpa using hnd) h0
  simpa using this

theorem foldrMax_ge {l : List ℕ} {x : ℕ} (hx : x ∈ l) : x ≤ l.foldr max 0 := by
  induction l with
  | nil => cases hx
  | cons a t ih =>
    rcases List.mem_cons.mp hx with h | h
    · subst h; exact le_max_left _ _
    · exact le_trans (ih h) (le_max_right _ _)

theorem foldrMax_le {l : List ℕ} {m : ℕ} (h : ∀ x ∈ l, x ≤ m) : l.foldr max 0 ≤ m := by
  induction l with
  | nil => simp
  | cons a t ih =>
    simp only [List.foldr_cons]
    exact max_le (h a (List.mem_cons_self a t)) (ih fun x hx => h x (List.mem_cons_of_mem a hx))

/-- C3: with a unique outcome set, a decided sentiment resolution's
winner attains the maximum accepted count, and among the outcomes tied
for that maximum it has the greatest mean confidence
(`confidence_sum / count`), the earliest-declared outcome winning on
equal means (a tied outcome displaces the winner only with a strictly
greater mean). -/
theorem c3_tie_break (os : List String) (js : List Judgment) (r : DecidedCore)
    (hnd : os.Nodup) (hdec : resolveSentimentCore os js = .decided r) :
    ∃ w, r.winning_outcome = some w ∧ w ∈ os
      ∧ cntA os js w = maxA os js
      ∧ ∀ o ∈ os, cntA os js o = maxA os js →
          meanA os js o ≤ meanA os js w
          ∧ (meanA os js o = meanA os js w → os.indexOf w ≤ os.indexOf o) := by
  simp only [resolveSentimentCore, aggregate_closed, dedupKeys_eq_self hnd] at hdec
  by_cases htot : totalA os js = 0
  · rw [if_pos htot] at hdec
    exact absurd hdec (by simp)
  · rw [if_neg htot] at hdec
    by_cases hw1 : (os.foldl (winStep fun o => ⟨cntA os js o, sumA os js o⟩)
        (0, Option.none)).1 = 0
    · rw [if_pos hw1] at hdec
      exact absurd hdec (by simp)
    · rw [if_neg hw1] at hdec
      have hinv := winFold_char (fun o => ⟨cntA os js o, sumA os js o⟩) os hnd
      rcases hinv.2 (Nat.pos_of_ne_zero hw1) with ⟨w, hw2, hwmem, hwcnt, hubb, htie⟩
      have hmax : maxA os js
          = (os.foldl (winStep fun o => ⟨cntA os js o, sumA os js o⟩)
              (0, Option.none)).1 := by
        apply le_antisymm
        · rw [maxA, dedupKeys_eq_self hnd]
          apply foldrMax_le
          intro x hx
          rcases List.mem_map.mp hx with ⟨o, ho, rfl⟩
          exact hubb o ho
        · rw [maxA, dedupKeys_eq_self hnd, ← hwcnt]
          exact foldrMax_ge (List.mem_map.mpr ⟨w, hwmem, rfl⟩)
      cases hdec
      refine ⟨w, hw2, hwmem, by rw [hmax]; exact hwcnt, ?_⟩
      intro o ho hco
      have := htie o ho (hco.trans hmax)
      exact ⟨this.1, this.2⟩

/-- Witness for C3: a 1-1 tie where "B" has the greater mean confidence. -/
theorem c3_tie_break_witness :
    (["A", "B"] : List String).Nodup
    ∧ resolveSentimentCore ["A", "B"] [⟨some "A", 7/10⟩, ⟨some "B", 9/10⟩]
        = .decided ⟨some "B", 1, 1/2,
            [("A", ⟨1, 50, 7/10⟩), ("B", ⟨1, 50, 9/10⟩)], 2⟩
    ∧ ∃ w, (⟨some "B", 1, 1/2,
            [("A", ⟨1, 50, 7/10⟩), ("B", ⟨1, 50, 9/10⟩)], 2⟩
          : DecidedCore).winning_outcome = some w
        ∧ w ∈ (["A", "B"] : List String)
        ∧ cntA ["A", "B"] [⟨some "A", 7/10⟩, ⟨some "B", 9/10⟩] w
            = maxA ["A", "B"] [⟨some "A", 7/10⟩, ⟨some "B", 9/10⟩]
        ∧ ∀ o ∈ (["A", "B"] : List String),
            cntA ["A", "B"] [⟨some "A", 7/10⟩, ⟨some "B", 9/10⟩] o
              = maxA ["A", "B"] [⟨some "A", 7/10⟩, ⟨some "B", 9/10⟩] →
            meanA ["A", "B"] [⟨some "A", 7/10⟩, ⟨some "B", 9/10⟩] o
              ≤ meanA ["A", "B"] [⟨some "A", 7/10⟩, ⟨some "B", 9/10⟩] w
            ∧ (meanA ["A", "B"] [⟨some "A", 7/10⟩, ⟨some "B", 9/10⟩] o
                = meanA ["A", "B"] [⟨some "A", 7/10⟩, ⟨some "B", 9/10⟩] w →
               (["A", "B"] : List String).indexOf w
                 ≤ (["A", "B"] : List String).indexOf o) := by
  refine ⟨by decide, by with_unfolding_all rfl, ?_⟩
  exact c3_tie_break _ _ _ (by decide) (by with_unfolding_all rfl)

/-! ### The decided record -/

theorem winFold_fst_eq_maxA (os : List String) (js : List Judgment) :
    ((dedupKeys os).foldl
        (winStep fun o => ⟨cntA os js o, sumA os js o⟩) (0, Option.none)).1
      = maxA os js := by
  have hinv := winFold_char (fun o => ⟨cntA os js o, sumA os js o⟩)
      (dedupKeys os) (nodup_dedupKeys os)
  rcases Nat.eq_zero_or_pos ((dedupKeys os).foldl
      (winStep fun o => ⟨cntA os js o, sumA os js o⟩) (0, Option.none)).1 with h0 | hpos
  · rw [h0]
    symm
    rw [maxA]
    apply Nat.le_zero.mp
    apply foldrMax_le
    intro x hx
    rcases List.mem_map.mp hx with ⟨o, ho, rfl⟩
    exact le_of_eq ((hinv.1 h0).2 o ho)
  · rcases hinv.2 hpos with ⟨w, _, hwmem, hwcnt, hubb, _⟩
    apply le_antisymm
    · rw [← hwcnt]
      exact foldrMax_ge (List.mem_map.mpr ⟨w, hwmem, rfl⟩)
    · rw [maxA]
      apply foldrMax_le
      intro x hx
      rcases List.mem_map.mp hx with ⟨o, ho, rfl⟩
      exact hubb o ho

/-- C5 (amended): every decided sentiment record carries
`confidence = round(max_count / total_analyzed, 4)`,
`total_analyzed`, the per-outcome breakdown, and
`winning_index = outcomes.index(winning_outcome)` whenever the winning
outcome is truthy (non-empty) — an empty-string winner gets
`winning_index = -1` by Python truthiness, see the counterexample;
and the spec's five-judgment scenario resolves to "Yes" with
`total_analyzed = 5`, `confidence = 0.6` and `winning_index = 0`. -/
theorem c5_decided_record :
    (∀ (os : List String) (js : List Judgment) (r : DecidedCore),
      resolveSentimentCore os js = .decided r →
        r.confidence = roundTo 4 ((maxA os js : ℚ) / (totalA os js : ℚ))
        ∧ r.total_analyzed = totalA os js
        ∧ r.sentiment_breakdown = finalize os (aggregate os js).1 (aggregate os js).2
        ∧ (∀ w, r.winning_outcome = some w → w ≠ "" →
            r.winning_index = (os.indexOf w : ℤ))
        ∧ (r.winning_outcome = some "" → r.winning_index = -1))
    ∧ resolveSentimentCore ["Yes", "No"] scenJs
        = .decided ⟨some "Yes", 0, 3/5,
            [("Yes", ⟨3, 60, 4/5⟩), ("No", ⟨2, 40, 7/10⟩)], 5⟩ := by
  constructor
  · intro os js r hdec
    simp only [resolveSentimentCore, aggregate_closed] at hdec
    by_cases htot : totalA os js = 0
    · rw [if_pos htot] at hdec
      exact absurd hdec (by simp)
    · rw [if_neg htot] at hdec
      by_cases hw1 : ((dedupKeys os).foldl
          (winStep fun o => ⟨cntA os js o, sumA os js o⟩) (0, Option.none)).1 = 0
      · rw [if_pos hw1] at hdec
        exact absurd hdec (by simp)
      · rw [if_neg hw1] at hdec
        cases hdec
        refine ⟨?_, rfl, ?_, ?_, ?_⟩
        · show roundTo 4 _ = _
          rw [winFold_fst_eq_maxA]
        · show finalize _ _ _ = _
          rw [aggregate_closed]
        · intro w hw hne
          show (match ((dedupKeys os).foldl
              (winStep fun o => ⟨cntA os js o, sumA os js o⟩) (0, Option.none)).2 with
            | some w => if w ≠ "" then (os.indexOf w : ℤ) else -1
            | Option.none => -1) = (os.indexOf w : ℤ)
          rw [show ((dedupKeys os).foldl
              (winStep fun o => ⟨cntA os js o, sumA os js o⟩) (0, Option.none)).2
              = some w from hw]
          simp [hne]
        · intro hw
          show (match ((dedupKeys os).foldl
              (winStep fun o => ⟨cntA os js o, sumA os js o⟩) (0, Option.none)).2 with
            | some w => if w ≠ "" then (os.indexOf w : ℤ) else -1
            | Option.none => -1) = -1
          rw [show ((dedupKeys os).foldl
              (winStep fun o => ⟨cntA os js o, sumA os js o⟩) (0, Option.none)).2
              = some "" from hw]
          simp
  · with_unfolding_all rfl

/-- Witness for C5's universal part at the scenario instance. -/
theorem c5_decided_record_witness :
    resolveSentimentCore ["Yes", "No"] scenJs
        = .decided ⟨some "Yes", 0, 3/5,
            [("Yes", ⟨3, 60, 4/5⟩), ("No", ⟨2, 40, 7/10⟩)], 5⟩
    ∧ (3/5 : ℚ) = roundTo 4 ((maxA ["Yes", "No"] scenJs : ℚ)
          / (totalA ["Yes", "No"] scenJs : ℚ))
    ∧ (5 : ℕ) = totalA ["Yes", "No"] scenJs
    ∧ (0 : ℤ) = ((["Yes", "No"] : List String).indexOf "Yes" : ℤ) := by
  have hEq : resolveSentimentCore ["Yes", "No"] scenJs
      = .decided ⟨some "Yes", 0, 3/5,
          [("Yes", ⟨3, 60, 4/5⟩), ("No", ⟨2, 40, 7/10⟩)], 5⟩ := by
    with_unfolding_all rfl
  have h := (c5_decided_record.1 ["Yes", "No"] scenJs _ hEq)
  exact ⟨hEq, h.1, h.2.1, h.2.2.2.1 "Yes" rfl (by decide)⟩

/-- C5 counterexample: outcomes `["", "B"]` with one accepted judgment
for the empty-string outcome produce a decided record whose
`winning_index` is `-1` although `outcomes.index(winning_outcome)` is 0
(`if winning_outcome` treats the empty string as falsy). -/
theorem c5_winning_index_counterexample :
    resolveSentimentCore ["", "B"] [⟨some "", 9/10⟩]
        = .decided ⟨some "", -1, 1, [("", ⟨1, 100, 9/10⟩), ("B", ⟨0, 0, 0⟩)], 1⟩
    ∧ ((["", "B"] : List String).indexOf "" : ℤ) = 0 := by
  constructor
  · with_unfolding_all rfl
  · decide

/-! ### Supporter sorting and truncation in `classify_teams` -/

/-- C10: a team with more than 100 qualifying items reports exactly 100
supporters, sorted by confidence descending, and they are the
highest-confidence ones: the sorted list is a permutation of the
qualifying items, the report is its 100-element head, and every dropped
item's confidence is at most every reported item's confidence.  A team
with at most 100 qualifying items reports all of them, sorted by
confidence descending. -/
theorem c10_supporter_cap (clT : String → Judgment) (team_labels : List String)
    (tweets : List STweet) (t : String) :
    (100 < (supportersOf clT team_labels tweets t).length →
      (reportedSupporters clT team_labels tweets t).length = 100
      ∧ List.Sorted rDesc (reportedSupporters clT team_labels tweets t)
      ∧ (List.insertionSort rDesc (supportersOf clT team_labels tweets t)).Perm
          (supportersOf clT team_labels tweets t)
      ∧ List.insertionSort rDesc (supportersOf clT team_labels tweets t)
          = reportedSupporters clT team_labels tweets t
            ++ (List.insertionSort rDesc (supportersOf clT team_labels tweets t)).drop 100
      ∧ ∀ a ∈ reportedSupporters clT team_labels tweets t,
          ∀ b ∈ (List.insertionSort rDesc (supportersOf clT team_labels tweets t)).drop 100,
            b.confidence ≤ a.confidence)
    ∧ ((supportersOf clT team_labels tweets t).length ≤ 100 →
        (reportedSupporters clT team_labels tweets t).Perm
          (supportersOf clT team_labels tweets t)
        ∧ List.Sorted rDesc (reportedSupporters clT team_labels tweets t)) := by
  have hperm : (List.insertionSort rDesc (supportersOf clT team_labels tweets t)).Perm
      (supportersOf clT team_labels tweets t) :=
    List.perm_insertionSort rDesc _
  have hsorted : List.Sorted rDesc
      (List.insertionSort rDesc (supportersOf clT team_labels tweets t)) :=
    List.sorted_insertionSort rDesc _
  have hslen : (List.insertionSort rDesc (supportersOf clT team_labels tweets t)).length
      = (supportersOf clT team_labels tweets t).length := hperm.length_eq
  have hrep : reportedSupporters clT team_labels tweets t
      = (List.insertionSort rDesc (supportersOf clT team_labels tweets t)).take 100 := rfl
  constructor
  · intro hlen
    refine ⟨?_, ?_, hperm, ?_, ?_⟩
    · rw [hrep, List.length_take, hslen]
      omega
    · rw [hrep]
      exact hsorted.sublist (List.take_sublist _ _)
    · rw [hrep, List.take_append_drop]
    · intro a ha b hb
      rw [hrep] at ha
      have hsp : List.Pairwise rDesc
          ((List.insertionSort rDesc (supportersOf clT team_labels tweets t)).take 100
            ++ (List.insertionSort rDesc (supportersOf clT team_labels tweets t)).drop 100) := by
        rw [List.take_append_drop]
        exact hsorted
      exact (List.pairwise_append.mp hsp).2.2 a ha b hb
  · intro hlen
    have htake : (List.insertionSort rDesc (supportersOf clT team_labels tweets t)).take 100
        = List.insertionSort rDesc (supportersOf clT team_labels tweets t) := by
      apply List.take_of_length_le
      omega
    rw [hrep, htake]
    exact ⟨hperm, hsorted⟩

/-- Witness for C10 with 101 qualifying tweets of distinct lengths. -/
theorem c10_supporter_cap_witness :
    100 < (supportersOf wClT ["T", "U"] wTweets "T").length
    ∧ (reportedSupporters wClT ["T", "U"] wTweets "T").length = 100
    ∧ List.Sorted rDesc (reportedSupporters wClT ["T", "U"] wTweets "T") := by
  have hlen : 100 < (supportersOf wClT ["T", "U"] wTweets "T").length := by decide
  have h := (c10_supporter_cap wClT ["T", "U"] wTweets "T").1 hlen
  exact ⟨hlen, h.1, h.2.1⟩

/-! ### Dynamic layer: record shapes and validation -/

theorem pyContains_dict (kvs : List (PyVal × PyVal)) (k : String) :
    pyContains (.str k) (.dict kvs) = .ok (hasKeyStr kvs k) := rfl

theorem checkFields_nil (m : PyVal) : checkFields m [] = .ok () := rfl

theorem checkFields_cons (kvs : List (PyVal × PyVal)) (g : String) (gs : List String) :
    checkFields (.dict kvs) (g :: gs)
      = (if hasKeyStr kvs g = true then checkFields (.dict kvs) gs
         else .error (.valueError ("Missing required field: " ++ g))) := rfl

theorem pyGetD_dict (kvs : List (PyVal × PyVal)) (k : String) (d : PyVal) :
    pyGetD (.dict kvs) k d = .ok ((lookupPy kvs (.str k)).getD d) := rfl

theorem pending_ok_shape (m : PyVal) (method msg : String) (r : PyVal)
    (h : pending_resolution m method msg = .ok r) :
    lookupStr r "status" = some (.str "pending") := by
  cases m <;> simp [pending_resolution] at h
  subst h
  rfl

theorem error_response_dict (kvs : List (PyVal × PyVal)) (msg : String) :
    create_error_response (.dict kvs) msg = .ok (errorRecordOf kvs msg) := rfl

theorem errorRecordOf_status (kvs : List (PyVal × PyVal)) (msg : String) :
    lookupStr (errorRecordOf kvs msg) "status" = some (.str "error") := rfl

theorem errorRecordOf_error (kvs : List (PyVal × PyVal)) (msg : String) :
    lookupStr (errorRecordOf kvs msg) "error" = some (.str msg) := rfl

theorem finishSentiment_ok_shape (m outsV : PyVal) (outs : List PyVal)
    (st : List (PyVal × OCount) × ℕ) (r : PyVal)
    (h : finishSentiment m outsV outs st = .ok r) :
    lookupStr r "status" = some (.str "pending")
    ∨ (lookupStr r "status" = Option.none
       ∧ lookupStr r "winning_outcome" ≠ Option.none
       ∧ lookupStr r "confidence" ≠ Option.none) := by
  unfold finishSentiment at h
  by_cases h0 : st.2 = 0
  · rw [if_pos h0] at h
    exact absurd h (by simp)
  · rw [if_neg h0] at h
    by_cases h1 : (st.1.foldl (winStepDyn st.1) (0, PyVal.none)).1 = 0
    · rw [if_pos h1] at h
      exact Or.inl (pending_ok_shape _ _ _ _ h)
    · rw [if_neg h1] at h
      iterate 6 (all_goals (try split at h))
      all_goals try simp at h
      all_goals
        (subst h
         refine Or.inr ⟨rfl, ?_, ?_⟩
         · show (some _ : Option PyVal) ≠ Option.none
           simp
         · show (some _ : Option PyVal) ≠ Option.none
           simp)

theorem resolve_by_sentiment_ok_shape (cl : Cl) (m : PyVal) (r : PyVal)
    (h : resolve_by_sentiment cl m = .ok r) :
    lookupStr r "status" = some (.str "pending")
    ∨ (lookupStr r "status" = Option.none
       ∧ lookupStr r "winning_outcome" ≠ Option.none
       ∧ lookupStr r "confidence" ≠ Option.none) := by
  unfold resolve_by_sentiment at h
  iterate 8 (all_goals (try split at h))
  all_goals try simp at h
  all_goals
    first
      | exact finishSentiment_ok_shape _ _ _ _ _ h

theorem tryResolve_ok_shape (cl : Cl) (m : PyVal) (r : PyVal)
    (h : tryResolve cl m = .ok r) :
    lookupStr r "status" = some (.str "pending")
    ∨ (lookupStr r "status" = Option.none
       ∧ lookupStr r "winning_outcome" ≠ Option.none
       ∧ lookupStr r "confidence" ≠ Option.none) := by
  unfold tryResolve at h
  iterate 8 (all_goals (try split at h))
  all_goals try simp at h
  all_goals
    first
      | exact resolve_by_sentiment_ok_shape cl m r h
      | exact Or.inl (pending_ok_shape _ _ _ _ h)

/-- C2 counterexample: a non-dict input (a list) escapes the resolver:
the catch-all handler's own `market_data.get` raises `AttributeError`
past the boundary instead of producing an error record. -/
theorem c2_nondict_counterexample :
    resolve_market clNoneW (.list [])
      = .error (.attributeError "object has no attribute get") := by
  with_unfolding_all rfl

/-- C2 (amended): on every dict input (whatever the field values and the
classifier), `resolve_market` never raises: it returns a record that is
an error record, a pending record, or a decided record (no `status` key
but `winning_outcome` and `confidence` present).  On non-dict inputs the
error-response construction itself raises — see the counterexample. -/
theorem c2_total_on_dict_inputs (cl : Cl) (kvs : List (PyVal × PyVal)) :
    ∃ r, resolve_market cl (.dict kvs) = .ok r
      ∧ (lookupStr r "status" = some (.str "error")
         ∨ lookupStr r "status" = some (.str "pending")
         ∨ (lookupStr r "status" = Option.none
            ∧ lookupStr r "winning_outcome" ≠ Option.none
            ∧ lookupStr r "confidence" ≠ Option.none)) := by
  cases h : tryResolve cl (.dict kvs) with
  | ok r =>
    refine ⟨r, ?_, ?_⟩
    · rw [resolve_market, h]
    · rcases tryResolve_ok_shape cl (.dict kvs) r h with hs | hs
      · exact Or.inr (Or.inl hs)
      · exact Or.inr (Or.inr hs)
  | error e =>
    refine ⟨errorRecordOf kvs (excMsg e), ?_, Or.inl (errorRecordOf_status kvs _)⟩
    rw [resolve_market, h]
    rfl

/-! ### Validation (C6) -/

theorem checkFields_error_shape (kvs : List (PyVal × PyVal)) (fs : List String)
    (e : PyExc)
    (h : checkFields (.dict kvs) fs = .error e) : ∃ msg, e = .valueError msg := by
  induction fs with
  | nil => rw [checkFields_nil] at h; cases h
  | cons g gs ih =>
    rw [checkFields_cons] at h
    by_cases hg : hasKeyStr kvs g = true
    · rw [if_pos hg] at h
      exact ih h
    · rw [if_neg hg] at h
      cases h
      exact ⟨_, rfl⟩

theorem checkFields_error_of_missing (kvs : List (PyVal × PyVal)) (fs : List String)
    (h : ∃ f ∈ fs, hasKeyStr kvs f = false) :
    ∃ msg, checkFields (.dict kvs) fs = .error (.valueError msg) := by
  induction fs with
  | nil =>
    rcases h with ⟨f, hf, _⟩
    cases hf
  | cons g gs ih =>
    rw [checkFields_cons]
    by_cases hg : hasKeyStr kvs g = true
    · rw [if_pos hg]
      apply ih
      rcases h with ⟨f, hf, hk⟩
      rcases List.mem_cons.mp hf with h1 | h1
      · subst h1; rw [hg] at hk; cases hk
      · exact ⟨f, h1, hk⟩
    · rw [if_neg hg]
      exact ⟨_, rfl⟩

theorem checkFields_ok_mem (kvs : List (PyVal × PyVal)) (fs : List String)
    (h : checkFields (.dict kvs) fs = .ok ()) :
    ∀ f ∈ fs, hasKeyStr kvs f = true := by
  induction fs with
  | nil => intro f hf; cases hf
  | cons g gs ih =>
    rw [checkFields_cons] at h
    by_cases hg : hasKeyStr kvs g = true
    · rw [if_pos hg] at h
      intro f hf
      rcases List.mem_cons.mp hf with h1 | h1
      · subst h1; exact hg
      · exact ih h f h1
    · rw [if_neg hg] at h
      cases h

theorem hasKey_lookup_some (kvs : List (PyVal × PyVal)) (k : String)
    (h : hasKeyStr kvs k = true) : ∃ v, lookupPy kvs (.str k) = some v := by
  induction kvs with
  | nil => cases h
  | cons kv t ih =>
    rw [hasKeyStr, List.any_cons] at h
    by_cases hk : pyEq kv.1 (.str k) = true
    · refine ⟨kv.2, ?_⟩
      simp [lookupPy, List.find?, hk]
    · have ht : t.any (fun kv => pyEq kv.1 (.str k)) = true := by
        rcases Bool.or_eq_true_iff.mp h with h1 | h1
        · exact absurd h1 hk
        · exact h1
      rcases ih ht with ⟨v, hv⟩
      refine ⟨v, ?_⟩
      have hkf : pyEq kv.1 (.str k) = false := by
        revert hk
        cases pyEq kv.1 (.str k) <;> simp
      simpa [lookupPy, List.find?, hkf] using hv

/-- C6 (amended): `resolve_market` returns an error record immediately —
independently of the classifier, so with no per-item processing — when a
required field is absent or `outcomes` is not a list of at least two
entries.  Emptiness of `market_id`/`question` and uniqueness of
`outcomes` are not checked (see the counterexample where an
empty-string `market_id` reaches a decided record). -/
theorem c6_validation_errors (kvs : List (PyVal × PyVal))
    (hcond : hasKeyStr kvs "market_id" = false ∨ hasKeyStr kvs "question" = false
      ∨ hasKeyStr kvs "outcomes" = false ∨ hasKeyStr kvs "resolution_method" = false
      ∨ (∃ v, lookupPy kvs (.str "outcomes") = some v
           ∧ ∀ xs, v = PyVal.list xs → xs.length < 2)) :
    ∃ msg, validate_market_data (.dict kvs) = .error (.valueError msg)
      ∧ ∀ cl : Cl, resolve_market cl (.dict kvs) = .ok (errorRecordOf kvs msg)
        ∧ lookupStr (errorRecordOf kvs msg) "status" = some (.str "error") := by
  have main : ∃ msg, validate_market_data (.dict kvs) = .error (.valueError msg) := by
    cases hcf : checkFields (.dict kvs)
        ["market_id", "question", "outcomes", "resolution_method"] with
    | error e =>
      rcases checkFields_error_shape _ _ _ hcf with ⟨msg, rfl⟩
      refine ⟨msg, ?_⟩
      unfold validate_market_data
      rw [hcf]
    | ok u =>
      cases u
      have hall := checkFields_ok_mem _ _ hcf
      rcases hcond with h | h | h | h | ⟨v, hv, hlen⟩
      · rw [hall "market_id" (by simp)] at h; cases h
      · rw [hall "question" (by simp)] at h; cases h
      · rw [hall "outcomes" (by simp)] at h; cases h
      · rw [hall "resolution_method" (by simp)] at h; cases h
      · have hps : pySub (.dict kvs) "outcomes" = .ok v := by
          show (match lookupPy kvs (.str "outcomes") with
            | some v => (Except.ok v : Except PyExc PyVal)
            | Option.none => .error (.keyError "outcomes")) = .ok v
          rw [hv]
        refine ⟨"At least two outcomes are required", ?_⟩
        unfold validate_market_data
        rw [hcf]
        show (match pySub (.dict kvs) "outcomes" with
          | .error e => (.error e : Except PyExc Unit)
          | .ok v =>
            match v with
            | .list xs =>
                if xs.length < 2 then .error (.valueError "At least two outcomes are required")
                else .ok ()
            | _ => .error (.valueError "At least two outcomes are required")) = _
        rw [hps]
        cases v with
        | list xs =>
          have := hlen xs rfl
          simp [this]
        | none => rfl
        | bool b => rfl
        | int n => rfl
        | float q => rfl
        | str s => rfl
        | dict d => rfl
  rcases main with ⟨msg, hval⟩
  refine ⟨msg, hval, fun cl => ⟨?_, errorRecordOf_status kvs msg⟩⟩
  have htry : tryResolve cl (.dict kvs) = .error (.valueError msg) := by
    unfold tryResolve
    rw [hval]
  rw [resolve_market, htry]
  rfl

/-- Witness for C6: the empty dict is missing every required field. -/
theorem c6_validation_errors_witness :
    hasKeyStr ([] : List (PyVal × PyVal)) "market_id" = false
    ∧ ∃ msg, validate_market_data (.dict []) = .error (.valueError msg)
        ∧ ∀ cl : Cl, resolve_market cl (.dict []) = .ok (errorRecordOf [] msg)
          ∧ lookupStr (errorRecordOf [] msg) "status" = some (.str "error") :=
  ⟨rfl, c6_validation_errors [] (Or.inl rfl)⟩

/-- C6 counterexample: an empty-string `market_id` passes validation and
reaches a decided record (no `status` key, a winner, and the empty
`market_id` copied through) instead of an error record. -/
theorem c6_empty_field_counterexample :
    okLookup (resolve_market clYesW mktEmptyId) "status" = Option.none
    ∧ okLookup (resolve_market clYesW mktEmptyId) "winning_outcome" = some (.str "Yes")
    ∧ okLookup (resolve_market clYesW mktEmptyId) "market_id" = some (.str "") := by
  refine ⟨?_, ?_, ?_⟩ <;> with_unfolding_all rfl

/-! ### Dispatch on the resolution method (C7) -/

theorem pendingRecordOf_fields (kvs : List (PyVal × PyVal)) (method msg : String) :
    lookupStr (pendingRecordOf kvs method msg) "status" = some (.str "pending")
    ∧ lookupStr (pendingRecordOf kvs method msg) "winning_outcome" = some .none
    ∧ lookupStr (pendingRecordOf kvs method msg) "winning_index" = some (.int (-1))
    ∧ lookupStr (pendingRecordOf kvs method msg) "confidence" = some (.float 0)
    ∧ lookupStr (pendingRecordOf kvs method msg) "resolution_method" = some (.str method)
    ∧ lookupStr (pendingRecordOf kvs method msg) "message" = some (.str msg) :=
  ⟨rfl, rfl, rfl, rfl, rfl, rfl⟩

theorem tryResolve_dispatch (cl : Cl) (kvs : List (PyVal × PyVal)) (s : String)
    (hval : validate_market_data (.dict kvs) = .ok ())
    (hrm : lookupPy kvs (.str "resolution_method") = some (.str s)) :
    tryResolve cl (.dict kvs)
      = (if strLower s = "sentiment" then resolve_by_sentiment cl (.dict kvs)
         else if strLower s = "oracle" then
           pending_resolution (.dict kvs) "oracle" "Pending manual resolution"
         else if strLower s = "manual" then
           pending_resolution (.dict kvs) "manual" "Pending manual resolution"
         else .error (.valueError ("Unsupported resolution method: " ++ strLower s))) := by
  unfold tryResolve
  rw [hval, pyGetD_dict, hrm]
  rfl

/-- C7 (amended): for a validated market, a resolution method whose
lower-casing is "oracle" or "manual" always yields — regardless of
`reply_tweets` — the pending record with `status = "pending"`,
`winning_outcome = None`, `winning_index = -1`, `confidence = 0.0`, the
method name, and the fixed message "Pending manual resolution"
(identical for both methods, not method-specific); any other string
method besides "sentiment" yields the error record with message
"Unsupported resolution method: <method>". -/
theorem c7_dispatch (cl : Cl) (kvs : List (PyVal × PyVal)) (s : String)
    (hval : validate_market_data (.dict kvs) = .ok ())
    (hrm : lookupPy kvs (.str "resolution_method") = some (.str s)) :
    ((strLower s = "oracle" ∨ strLower s = "manual") →
      resolve_market cl (.dict kvs)
        = .ok (pendingRecordOf kvs (strLower s) "Pending manual resolution")
      ∧ lookupStr (pendingRecordOf kvs (strLower s) "Pending manual resolution")
          "status" = some (.str "pending")
      ∧ lookupStr (pendingRecordOf kvs (strLower s) "Pending manual resolution")
          "winning_outcome" = some .none
      ∧ lookupStr (pendingRecordOf kvs (strLower s) "Pending manual resolution")
          "winning_index" = some (.int (-1))
      ∧ lookupStr (pendingRecordOf kvs (strLower s) "Pending manual resolution")
          "confidence" = some (.float 0)
      ∧ lookupStr (pendingRecordOf kvs (strLower s) "Pending manual resolution")
          "message" = some (.str "Pending manual resolution"))
    ∧ (strLower s ≠ "sentiment" → strLower s ≠ "oracle" → strLower s ≠ "manual" →
        resolve_market cl (.dict kvs)
          = .ok (errorRecordOf kvs ("Unsupported resolution method: " ++ strLower s))) := by
  have h1 := tryResolve_dispatch cl kvs s hval hrm
  constructor
  · intro hom
    have htry : tryResolve cl (.dict kvs)
        = .ok (pendingRecordOf kvs (strLower s) "Pending manual resolution") := by
      rcases hom with ho | ho <;> rw [h1, ho] <;> simp [pending_resolution]
    refine ⟨?_, (pendingRecordOf_fields kvs _ _).1, (pendingRecordOf_fields kvs _ _).2.1,
      (pendingRecordOf_fields kvs _ _).2.2.1, (pendingRecordOf_fields kvs _ _).2.2.2.1,
      (pendingRecordOf_fields kvs _ _).2.2.2.2.2⟩
    rw [resolve_market, htry]
  · intro hs1 hs2 hs3
    have htry : tryResolve cl (.dict kvs)
        = .error (.valueError ("Unsupported resolution method: " ++ strLower s)) := by
      rw [h1, if_neg hs1, if_neg hs2, if_neg hs3]
    rw [resolve_market, htry]
    rfl

/-- Witness for C7 at the mixed-case oracle market. -/
theorem c7_dispatch_witness :
    validate_market_data (.dict mktOracleKvs) = .ok ()
    ∧ lookupPy mktOracleKvs (.str "resolution_method") = some (.str "Oracle")
    ∧ strLower "Oracle" = "oracle"
    ∧ resolve_market clYesW (.dict mktOracleKvs)
        = .ok (pendingRecordOf mktOracleKvs (strLower "Oracle") "Pending manual resolution") := by
  refine ⟨by with_unfolding_all rfl, rfl, rfl, ?_⟩
  exact ((c7_dispatch clYesW mktOracleKvs "Oracle" (by with_unfolding_all rfl) rfl).1
    (Or.inl rfl)).1

/-- C7 counterexample: the pending message is not method-specific — the
oracle and manual markets receive the identical message
"Pending manual resolution". -/
theorem c7_message_counterexample :
    okLookup (resolve_market clYesW mktOracle) "message"
      = some (.str "Pending manual resolution")
    ∧ okLookup (resolve_market clYesW mktManual) "message"
      = some (.str "Pending manual resolution")
    ∧ okLookup (resolve_market clYesW mktOracle) "message"
      = okLookup (resolve_market clYesW mktManual) "message" := by
  refine ⟨?_, ?_, ?_⟩ <;> with_unfolding_all rfl

/-! ### The insufficient-data path (C1) -/

theorem dynFold_snd_const (cl : Cl) (outs keys : List PyVal) (tws : List PyVal)
    (h : ∀ tw ∈ tws, tweetJudge cl outs keys tw = Option.none) :
    ∀ acc, (tws.foldl (dynStep cl outs keys) acc).2 = acc.2 := by
  induction tws with
  | nil => intro acc; rfl
  | cons tw tws ih =>
    intro acc
    rw [List.foldl_cons]
    rw [show dynStep cl outs keys acc tw = acc by
      rw [dynStep, h tw (List.mem_cons_self tw tws)]]
    exact ih (fun tw' htw' => h tw' (List.mem_cons_of_mem tw htw')) acc

theorem finishSentiment_total_zero (m outsV : PyVal) (outs : List PyVal)
    (st : List (PyVal × OCount) × ℕ) (h : st.2 = 0) :
    finishSentiment m outsV outs st
      = .error (.valueError "No valid tweets could be analyzed for sentiment") := by
  unfold finishSentiment
  rw [if_pos h]

/-- C1 (amended): for a validated sentiment market in which every reply
item is skipped or rejected — not a dict, no `text` key, classifier
raised, unclassified (`team` is `None`), below the 0.6 threshold, or
labelled outside the outcome keys — `resolve_market` returns an *error*
record with message "No valid tweets could be analyzed for sentiment",
not a pending record: `total_analyzed == 0` hits the
`raise ValueError` of line 113 before the pending branch of lines
141-146, which is unreachable. -/
theorem c1_no_accepted_judgments (cl : Cl) (kvs : List (PyVal × PyVal)) (s : String)
    (xs : List PyVal) (tws : List PyVal)
    (hval : validate_market_data (.dict kvs) = .ok ())
    (hrm : lookupPy kvs (.str "resolution_method") = some (.str s))
    (hsent : strLower s = "sentiment")
    (hout : lookupPy kvs (.str "outcomes") = some (.list xs))
    (hhash : ∀ o ∈ xs, pyHashable o = true)
    (hrt : pyIter ((lookupPy kvs (.str "reply_tweets")).getD (.list [])) = .ok tws)
    (hskip : ∀ tw ∈ tws, tweetJudge cl xs (dedupPy xs) tw = Option.none) :
    resolve_market cl (.dict kvs)
      = .ok (errorRecordOf kvs "No valid tweets could be analyzed for sentiment")
    ∧ lookupStr (errorRecordOf kvs "No valid tweets could be analyzed for sentiment")
        "status" = some (.str "error") := by
  have hps : pySub (.dict kvs) "outcomes" = .ok (.list xs) := by
    show (match lookupPy kvs (.str "outcomes") with
      | some v => (Except.ok v : Except PyExc PyVal)
      | Option.none => .error (.keyError "outcomes")) = _
    rw [hout]
  have hnohash : (xs.any fun o => !pyHashable o) = false := by
    rw [List.any_eq_false]
    intro o ho
    simp [hhash o ho]
  have hsentr : resolve_by_sentiment cl (.dict kvs)
      = finishSentiment (.dict kvs) (.list xs) xs
          (tws.foldl (dynStep cl xs (dedupPy xs)) (initStats (dedupPy xs), 0)) := by
    unfold resolve_by_sentiment
    rw [hps]
    show (if (xs.any fun o => !pyHashable o) = true
        then (.error (.typeError "unhashable type") : Except PyExc PyVal)
        else match pyGetD (.dict kvs) "reply_tweets" (.list []) with
          | .error e => .error e
          | .ok rtV =>
            match pyIter rtV with
            | .error e => .error e
            | .ok tws =>
              finishSentiment (.dict kvs) (.list xs) xs
                (tws.foldl (dynStep cl xs (dedupPy xs)) (initStats (dedupPy xs), 0))) = _
    rw [hnohash]
    simp only [Bool.false_eq_true, if_false]
    rw [pyGetD_dict]
    show (match pyIter ((lookupPy kvs (.str "reply_tweets")).getD (.list [])) with
      | .error e => (.error e : Except PyExc PyVal)
      | .ok tws =>
        finishSentiment (.dict kvs) (.list xs) xs
          (tws.foldl (dynStep cl xs (dedupPy xs)) (initStats (dedupPy xs), 0))) = _
    rw [hrt]
  have hzero : (tws.foldl (dynStep cl xs (dedupPy xs)) (initStats (dedupPy xs), 0)).2 = 0 :=
    dynFold_snd_const cl xs (dedupPy xs) tws hskip _
  have htry : tryResolve cl (.dict kvs)
      = .error (.valueError "No valid tweets could be analyzed for sentiment") := by
    rw [tryResolve_dispatch cl kvs s hval hrm, hsent]
    simp only [if_pos rfl]
    rw [hsentr, finishSentiment_total_zero _ _ _ _ hzero]
    simp
  constructor
  · rw [resolve_market, htry]
    rfl
  · exact errorRecordOf_status kvs _

/-- Witness for C1 at the blank-reply sentiment market. -/
theorem c1_no_accepted_judgments_witness :
    validate_market_data (.dict mktBlankKvs) = .ok ()
    ∧ strLower "sentiment" = "sentiment"
    ∧ (∀ tw ∈ [PyVal.dict [(.str "text", .str "")]],
        tweetJudge clNoneW [.str "Yes", .str "No"]
          (dedupPy [.str "Yes", .str "No"]) tw = Option.none)
    ∧ resolve_market clNoneW (.dict mktBlankKvs)
        = .ok (errorRecordOf mktBlankKvs "No valid tweets could be analyzed for sentiment") := by
  refine ⟨by with_unfolding_all rfl, rfl, ?_, ?_⟩
  · intro tw htw
    rcases List.mem_singleton.mp htw with rfl
    with_unfolding_all rfl
  · exact (c1_no_accepted_judgments clNoneW mktBlankKvs "sentiment"
      [.str "Yes", .str "No"] [PyVal.dict [(.str "text", .str "")]]
      (by with_unfolding_all rfl) rfl rfl rfl (by decide) rfl
      (by
        intro tw htw
        rcases List.mem_singleton.mp htw with rfl
        with_unfolding_all rfl)).1

/-- C1 counterexample: with no accepted judgment the result is an error
record carrying "No valid tweets could be analyzed for sentiment" — no
`status = "pending"`, no `message`, no `confidence` field. -/
theorem c1_pending_counterexample :
    okLookup (resolve_market clNoneW mktBlank) "status" = some (.str "error")
    ∧ okLookup (resolve_market clNoneW mktBlank) "error"
        = some (.str "No valid tweets could be analyzed for sentiment")
    ∧ okLookup (resolve_market clNoneW mktBlank) "message" = Option.none
    ∧ okLookup (resolve_market clNoneW mktBlank) "confidence" = Option.none := by
  refine ⟨?_, ?_, ?_, ?_⟩ <;> with_unfolding_all rfl
